import Mathlib

/-!
Verification development for a networked minesweeper game engine.

The game engine (board generation, reveal with recursive flood fill, win
detection, flag toggling, timeout check) is embedded shallowly below.  The
authoritative engine is the server: `createNewGame`, `revealCell`, `checkWin`,
`checkTimeout` and the flag handler.  Mutations of the single global game state
are modelled by explicit state passing; `Date.now()` becomes a `now : Nat`
parameter; `Math.random()` draws for mine placement become an explicit list of
candidate positions; a JavaScript runtime error from an out-of-range array
access (`grid[r][c]` is `undefined`, and reading a property of `undefined`
throws) is modelled by the operation returning `none`.

The grid is modelled as a total function on coordinate pairs together with the
`rows`/`cols` fields; positions outside the `rows × cols` rectangle are never
consulted nor updated by the engine.  The source `Cell` also stores its own
coordinates `r`, `c`; those two fields merely duplicate the cell's position in
the grid and are never read by the engine, so they are dropped here.
-/

/-- Match status, the `"playing" | "won" | "lost"` union of the source. -/
inductive Status where
  | playing
  | won
  | lost
deriving DecidableEq, Repr

/-- One board cell (the source `Cell` without its redundant coordinate fields). -/
structure Cell where
  isMine : Bool
  isRevealed : Bool
  isFlagged : Bool
  neighborMines : Nat
deriving DecidableEq, Repr

/-- A board: cell contents for every coordinate pair. -/
def Grid := Nat → Nat → Cell

/-- The all-default grid: every cell non-mine, unrevealed, unflagged, count 0. -/
def initGrid : Grid :=
  fun _ _ => { isMine := false, isRevealed := false, isFlagged := false, neighborMines := 0 }

/-- The source `GameState` record. -/
structure GameState where
  grid : Grid
  rows : Nat
  cols : Nat
  mines : Nat
  status : Status
  startTime : Option Nat
  endTime : Option Nat
  timeLimit : Nat

/-- The nine `(dr, dc)` offsets of the nested `for` loops, in source order. -/
def offsets : List (Int × Int) :=
  [(-1,-1),(-1,0),(-1,1),(0,-1),(0,0),(0,1),(1,-1),(1,0),(1,1)]

/-- Replace the cell at position `(r, c)`. -/
def setCell (g : Grid) (r c : Nat) (cell : Cell) : Grid :=
  fun r2 c2 => if r2 = r ∧ c2 = c then cell else g r2 c2

/-- The in-bounds coordinate rectangle of a state. -/
def cellsOf (s : GameState) : Finset (Nat × Nat) :=
  Finset.range s.rows ×ˢ Finset.range s.cols

/-- The count of `checkWin`: in-bounds cells that are neither mines nor revealed. -/
def unrevealedSafeCells (s : GameState) : Nat :=
  ((cellsOf s).filter
    (fun p => (s.grid p.1 p.2).isMine = false ∧ (s.grid p.1 p.2).isRevealed = false)).card

/-- Count of in-bounds unrevealed cells (the termination measure of the flood fill). -/
def unrevealedCells (s : GameState) : Nat :=
  ((cellsOf s).filter (fun p => (s.grid p.1 p.2).isRevealed = false)).card

/-- The source `checkWin`: when no unrevealed safe cell remains, the match is won. -/
def checkWin (now : Nat) (s : GameState) : GameState :=
  if unrevealedSafeCells s = 0 then { s with status := Status.won, endTime := some now } else s

/-- The `grid.forEach` pass that reveals every mine cell (used on loss and timeout). -/
def revealAllMinesGrid (s : GameState) : Grid :=
  fun r c =>
    if r < s.rows ∧ c < s.cols ∧ (s.grid r c).isMine = true then
      { s.grid r c with isRevealed := true }
    else s.grid r c

/-- Mark the cell at `(r, c)` revealed (the `cell.isRevealed = true` assignment). -/
def reveal1 (s : GameState) (r c : Nat) : GameState :=
  { s with grid := setCell s.grid r c { s.grid r c with isRevealed := true } }

/-- The shared losing transition: `status = lost`, `endTime = now`, all mines
revealed.  Used both by a losing reveal and by the timeout check. -/
def loseState (now : Nat) (s : GameState) : GameState :=
  { s with status := Status.lost, endTime := some now, grid := revealAllMinesGrid s }

/-- The recursive body of the source `revealCell`.  The source recursion
terminates because every recursive call is made after marking a previously
unrevealed cell revealed; here that implicit bound is an explicit fuel
parameter, and callers supply fuel exceeding the number of unrevealed cells.
The flood fill recurses over the nine neighbor offsets of a zero-count cell,
skipping out-of-bounds positions, and a final `checkWin` runs on every
non-losing path. -/
def revealGo (now : Nat) : Nat → Nat → Nat → GameState → GameState
  | 0, _, _, s => s
  | fuel + 1, r, c, s =>
    if s.status ≠ Status.playing then s
    else if (s.grid r c).isRevealed = true ∨ (s.grid r c).isFlagged = true then s
    else if (s.grid r c).isMine = true then loseState now (reveal1 s r c)
    else
      checkWin now
        (if (s.grid r c).neighborMines = 0 then
          offsets.foldl (fun t d =>
            if 0 ≤ (r : Int) + d.1 ∧ (r : Int) + d.1 < (t.rows : Int) ∧
                0 ≤ (c : Int) + d.2 ∧ (c : Int) + d.2 < (t.cols : Int) then
              revealGo now fuel ((r : Int) + d.1).toNat ((c : Int) + d.2).toNat t
            else t) (reveal1 s r c)
        else reveal1 s r c)

/-- The source `revealCell` entry point.  The status guard precedes the grid
access, so a non-playing match is left untouched even for out-of-range
coordinates; under a playing match an out-of-range access throws (`none`). -/
def revealCell (now r c : Nat) (s : GameState) : Option GameState :=
  if s.status ≠ Status.playing then some s
  else if r < s.rows ∧ c < s.cols then some (revealGo now (s.rows * s.cols + 1) r c s)
  else none

/-- Toggle the flag of the cell at `(r, c)` (the `cell.isFlagged = !cell.isFlagged`
assignment of the flag handler). -/
def toggleFlag1 (s : GameState) (r c : Nat) : GameState :=
  { s with grid := setCell s.grid r c { s.grid r c with isFlagged := !(s.grid r c).isFlagged } }

/-- The `socket.on("flag")` handler: toggle the flag of an unrevealed cell of a
playing match.  As in `revealCell`, the status guard precedes the grid access. -/
def flagCell (r c : Nat) (s : GameState) : Option GameState :=
  if s.status ≠ Status.playing then some s
  else if r < s.rows ∧ c < s.cols then
    if (s.grid r c).isRevealed = true then some s
    else some (toggleFlag1 s r c)
  else none

/-- The source `checkTimeout`.  JavaScript `!gameState.startTime` is true both
for `null` and for the number `0`, so a zero timestamp is treated as unset.
`Math.floor((now - startTime) / 1000)` is floor division of the possibly
negative millisecond difference, hence `Int.fdiv`. -/
def checkTimeout (now : Nat) (s : GameState) : GameState × Bool :=
  if s.status ≠ Status.playing then (s, false)
  else
    match s.startTime with
    | none => (s, false)
    | some t0 =>
      if t0 = 0 then (s, false)
      else
        if (s.timeLimit : Int) ≤ Int.fdiv ((now : Int) - (t0 : Int)) 1000 then
          (loseState now s, true)
        else (s, false)

/-- The mine-placement `while` loop of `createNewGame`: consume random draws,
setting a mine and counting it only when the drawn cell is not yet a mine,
until `mines` mines are placed.  If the draw list is exhausted first, the
source loop would spin forever waiting on further draws; that is `none`. -/
def placeMines (mines : Nat) : List (Nat × Nat) → Grid → Nat → Option Grid
  | [], g, placed => if placed < mines then none else some g
  | (r, c) :: rest, g, placed =>
    if placed < mines then
      if (g r c).isMine = true then placeMines mines rest g placed
      else placeMines mines rest (setCell g r c { g r c with isMine := true }) (placed + 1)
    else some g

/-- The neighbor-counting loop of `createNewGame`: count mines over the nine
offsets around `(r, c)`, skipping out-of-bounds positions. -/
def mineNeighborCount (g : Grid) (rows cols r c : Nat) : Nat :=
  offsets.foldl (fun count d =>
    if 0 ≤ (r : Int) + d.1 ∧ (r : Int) + d.1 < (rows : Int) ∧
        0 ≤ (c : Int) + d.2 ∧ (c : Int) + d.2 < (cols : Int) ∧
        (g ((r : Int) + d.1).toNat ((c : Int) + d.2).toNat).isMine = true then
      count + 1
    else count) 0

/-- The pass of `createNewGame` that stores `neighborMines` for every in-bounds
non-mine cell (mine cells are skipped by `continue`).  The source pass mutates
only `neighborMines` while reading only `isMine`, so its iteration order is
irrelevant and a pointwise description is exact. -/
def fillNeighborCounts (g : Grid) (rows cols : Nat) : Grid :=
  fun r c =>
    if r < rows ∧ c < cols ∧ (g r c).isMine = false then
      { g r c with neighborMines := mineNeighborCount g rows cols r c }
    else g r c

/-- The source `createNewGame`, with the stream of `Math.random` cell draws made
explicit.  Sequential `if` statements assign the time limit; the two special
sizes are disjoint, so the nested conditional below computes the same value. -/
def createNewGame (rows cols mines : Nat) (draws : List (Nat × Nat)) (now : Nat) :
    Option GameState :=
  match placeMines mines draws initGrid 0 with
  | none => none
  | some g =>
    some
      { grid := fillNeighborCounts g rows cols
        rows := rows
        cols := cols
        mines := mines
        status := Status.playing
        startTime := some now
        endTime := none
        timeLimit :=
          if rows = 16 ∧ cols = 16 then 300
          else if rows = 16 ∧ cols = 30 then 600
          else 120 }

/-- Client-visible operations on the live match: the `click`, `flag` and
periodic timeout-check entry points. -/
inductive Op where
  | reveal (now r c : Nat)
  | flag (r c : Nat)
  | tick (now : Nat)

/-- Apply one operation.  A JavaScript error thrown by an out-of-range access
happens before any mutation, so the state survives unchanged (`Option.getD`). -/
def applyOp (op : Op) (s : GameState) : GameState :=
  match op with
  | Op.reveal now r c => (revealCell now r c s).getD s
  | Op.flag r c => (flagCell r c s).getD s
  | Op.tick now => (checkTimeout now s).1

/-- Apply a sequence of operations in order. -/
def applyOps (ops : List Op) (s : GameState) : GameState :=
  ops.foldl (fun t op => applyOp op t) s

/-- States reachable from a freshly generated match by any sequence of reveal,
flag and timeout-check operations. -/
inductive Reachable : GameState → Prop where
  | gen (rows cols mines : Nat) (draws : List (Nat × Nat)) (now : Nat) (s : GameState)
      (hdraws : ∀ d ∈ draws, d.1 < rows ∧ d.2 < cols)
      (hgen : createNewGame rows cols mines draws now = some s) : Reachable s
  | step (op : Op) (s : GameState) (hs : Reachable s) : Reachable (applyOp op s)

/-- Chebyshev distance at most one: the up-to-eight neighborhood, including the
cell itself (which the source loops also visit, via offset `(0, 0)`). -/
def chebAdj (r c r2 c2 : Nat) : Prop :=
  r ≤ r2 + 1 ∧ r2 ≤ r + 1 ∧ c ≤ c2 + 1 ∧ c2 ≤ c + 1

instance (r c r2 c2 : Nat) : Decidable (chebAdj r c r2 c2) := by
  unfold chebAdj; infer_instance

/-- Specification-side neighbor-mine count of cell `(r, c)`: the number of mine
cells among its up-to-eight adjacent in-bounds cells (Chebyshev distance one,
clipped at the grid edges). -/
def specNeighborMines (s : GameState) (r c : Nat) : Nat :=
  ((cellsOf s).filter
    (fun p => p ≠ (r, c) ∧ chebAdj r c p.1 p.2 ∧ (s.grid p.1 p.2).isMine = true)).card

/-- The board invariant established by generation: every in-bounds non-mine
cell stores the true count of its mined neighbors. -/
def neighborCountsCorrect (s : GameState) : Prop :=
  ∀ r < s.rows, ∀ c < s.cols, (s.grid r c).isMine = false →
    (s.grid r c).neighborMines = specNeighborMines s r c

instance (s : GameState) : Decidable (neighborCountsCorrect s) := by
  unfold neighborCountsCorrect; infer_instance

/-- The cells the flood fill of `revealCell` actually reveals, starting from a
zero-count cell `(r0, c0)`: the start cell, and inductively every in-bounds,
unrevealed, unflagged cell adjacent to an already flooded zero-count cell.
Expansion proceeds only through zero-count cells and never through a cell that
was already revealed before the reveal began. -/
inductive Flooded (s : GameState) (r0 c0 : Nat) : Nat → Nat → Prop where
  | start : Flooded s r0 c0 r0 c0
  | step (r c r2 c2 : Nat) (h : Flooded s r0 c0 r c)
      (hzero : (s.grid r c).neighborMines = 0)
      (hr2 : r2 < s.rows) (hc2 : c2 < s.cols) (hadj : chebAdj r c r2 c2)
      (hrev : (s.grid r2 c2).isRevealed = false)
      (hflag : (s.grid r2 c2).isFlagged = false) :
      Flooded s r0 c0 r2 c2

/-- The flood region as the specification sentence describes it: the connected
zero-count region through unflagged non-mine cells plus its bordering cells,
with no regard to which cells were already revealed. -/
inductive FloodedSpec (s : GameState) (r0 c0 : Nat) : Nat → Nat → Prop where
  | start : FloodedSpec s r0 c0 r0 c0
  | step (r c r2 c2 : Nat) (h : FloodedSpec s r0 c0 r c)
      (hzero : (s.grid r c).neighborMines = 0)
      (hr2 : r2 < s.rows) (hc2 : c2 < s.cols) (hadj : chebAdj r c r2 c2)
      (hflag : (s.grid r2 c2).isFlagged = false)
      (hmine : (s.grid r2 c2).isMine = false) :
      FloodedSpec s r0 c0 r2 c2

/-! ## Basic lemmas about the state operations -/

theorem setCell_eval (g : Grid) (r c : Nat) (x : Cell) (a b : Nat) :
    setCell g r c x a b = if a = r ∧ b = c then x else g a b := rfl

theorem reveal1_grid (s : GameState) (r c a b : Nat) :
    (reveal1 s r c).grid a b =
      if a = r ∧ b = c then { s.grid r c with isRevealed := true } else s.grid a b := rfl

@[simp] theorem reveal1_rows (s : GameState) (r c : Nat) : (reveal1 s r c).rows = s.rows := rfl

@[simp] theorem reveal1_cols (s : GameState) (r c : Nat) : (reveal1 s r c).cols = s.cols := rfl

@[simp] theorem reveal1_status (s : GameState) (r c : Nat) :
    (reveal1 s r c).status = s.status := rfl

@[simp] theorem loseState_status (now : Nat) (s : GameState) :
    (loseState now s).status = Status.lost := rfl

@[simp] theorem loseState_endTime (now : Nat) (s : GameState) :
    (loseState now s).endTime = some now := rfl

theorem revealAllMinesGrid_eval (s : GameState) (a b : Nat) :
    revealAllMinesGrid s a b =
      if a < s.rows ∧ b < s.cols ∧ (s.grid a b).isMine = true then
        { s.grid a b with isRevealed := true }
      else s.grid a b := rfl

/-- Unfolding of `revealGo` at positive fuel. -/
theorem revealGo_succ (now fuel r c : Nat) (s : GameState) :
    revealGo now (fuel + 1) r c s =
      (if s.status ≠ Status.playing then s
      else if (s.grid r c).isRevealed = true ∨ (s.grid r c).isFlagged = true then s
      else if (s.grid r c).isMine = true then loseState now (reveal1 s r c)
      else
        checkWin now
          (if (s.grid r c).neighborMines = 0 then
            offsets.foldl (fun t d =>
              if 0 ≤ (r : Int) + d.1 ∧ (r : Int) + d.1 < (t.rows : Int) ∧
                  0 ≤ (c : Int) + d.2 ∧ (c : Int) + d.2 < (t.cols : Int) then
                revealGo now fuel ((r : Int) + d.1).toNat ((c : Int) + d.2).toNat t
              else t) (reveal1 s r c)
          else reveal1 s r c)) := rfl

theorem revealGo_of_notPlaying (now fuel r c : Nat) (s : GameState)
    (h : s.status ≠ Status.playing) : revealGo now fuel r c s = s := by
  cases fuel with
  | zero => rfl
  | succ fuel => rw [revealGo_succ, if_pos h]

theorem revealGo_of_guard (now fuel r c : Nat) (s : GameState)
    (h : (s.grid r c).isRevealed = true ∨ (s.grid r c).isFlagged = true) :
    revealGo now fuel r c s = s := by
  cases fuel with
  | zero => rfl
  | succ fuel =>
    rw [revealGo_succ]
    by_cases hp : s.status ≠ Status.playing
    · rw [if_pos hp]
    · rw [if_neg hp, if_pos h]

/-- Unfolding of `revealGo` on the main path: playing status, fresh unflagged
non-mine cell. -/
theorem revealGo_main (now fuel r c : Nat) (s : GameState)
    (hp : s.status = Status.playing)
    (hrev : (s.grid r c).isRevealed = false) (hflag : (s.grid r c).isFlagged = false)
    (hmine : (s.grid r c).isMine = false) :
    revealGo now (fuel + 1) r c s =
      checkWin now
        (if (s.grid r c).neighborMines = 0 then
          offsets.foldl (fun t d =>
            if 0 ≤ (r : Int) + d.1 ∧ (r : Int) + d.1 < (t.rows : Int) ∧
                0 ≤ (c : Int) + d.2 ∧ (c : Int) + d.2 < (t.cols : Int) then
              revealGo now fuel ((r : Int) + d.1).toNat ((c : Int) + d.2).toNat t
            else t) (reveal1 s r c)
        else reveal1 s r c) := by
  rw [revealGo_succ, if_neg (by simp [hp]), if_neg (by simp [hrev, hflag]),
    if_neg (by simp [hmine])]

/-- Unfolding of `revealGo` when a mine cell is revealed. -/
theorem revealGo_mine (now fuel r c : Nat) (s : GameState)
    (hp : s.status = Status.playing)
    (hrev : (s.grid r c).isRevealed = false) (hflag : (s.grid r c).isFlagged = false)
    (hmine : (s.grid r c).isMine = true) :
    revealGo now (fuel + 1) r c s = loseState now (reveal1 s r c) := by
  rw [revealGo_succ, if_neg (by simp [hp]), if_neg (by simp [hrev, hflag]), if_pos hmine]

/-- Invariant relation along a reveal: dimensions, mine layout, flags and
neighbor counts are untouched, and revealing is monotone. -/
def Evolves (s t : GameState) : Prop :=
  t.rows = s.rows ∧ t.cols = s.cols ∧ t.mines = s.mines ∧
  t.startTime = s.startTime ∧ t.timeLimit = s.timeLimit ∧
  (∀ a b, (t.grid a b).isMine = (s.grid a b).isMine ∧
    (t.grid a b).isFlagged = (s.grid a b).isFlagged ∧
    (t.grid a b).neighborMines = (s.grid a b).neighborMines) ∧
  (∀ a b, (s.grid a b).isRevealed = true → (t.grid a b).isRevealed = true)

theorem evolves_refl (s : GameState) : Evolves s s :=
  ⟨rfl, rfl, rfl, rfl, rfl, fun _ _ => ⟨rfl, rfl, rfl⟩, fun _ _ h => h⟩

theorem Evolves.trans {s t u : GameState} (h1 : Evolves s t) (h2 : Evolves t u) :
    Evolves s u := by
  obtain ⟨a1, a2, a3, a4, a5, a6, a7⟩ := h1
  obtain ⟨b1, b2, b3, b4, b5, b6, b7⟩ := h2
  refine ⟨b1.trans a1, b2.trans a2, b3.trans a3, b4.trans a4, b5.trans a5, ?_, ?_⟩
  · intro a b
    exact ⟨(b6 a b).1.trans (a6 a b).1, (b6 a b).2.1.trans (a6 a b).2.1,
      (b6 a b).2.2.trans (a6 a b).2.2⟩
  · intro a b h
    exact b7 a b (a7 a b h)

/-- Invariant form of `List.foldl`. -/
theorem foldl_induct {α β : Type} (P : β → Prop) (f : β → α → β) :
    ∀ (l : List α) (b : β), P b → (∀ b2 a, a ∈ l → P b2 → P (f b2 a)) → P (l.foldl f b) := by
  intro l
  induction l with
  | nil => intro b hb _; exact hb
  | cons d l ih =>
    intro b hb hstep
    exact ih (f b d) (hstep b d (List.mem_cons_self d l) hb)
      (fun b2 a ha => hstep b2 a (List.mem_cons_of_mem d ha))

theorem checkWin_grid (now : Nat) (s : GameState) : (checkWin now s).grid = s.grid := by
  unfold checkWin; split <;> rfl

theorem checkWin_evolves (now : Nat) (s : GameState) : Evolves s (checkWin now s) := by
  unfold checkWin
  split
  · exact ⟨rfl, rfl, rfl, rfl, rfl, fun _ _ => ⟨rfl, rfl, rfl⟩, fun _ _ h => h⟩
  · exact evolves_refl s

theorem reveal1_evolves (s : GameState) (r c : Nat) : Evolves s (reveal1 s r c) := by
  refine ⟨rfl, rfl, rfl, rfl, rfl, ?_, ?_⟩
  · intro a b
    rw [reveal1_grid]
    by_cases hab : a = r ∧ b = c
    · rw [if_pos hab]
      obtain ⟨rfl, rfl⟩ := hab
      exact ⟨rfl, rfl, rfl⟩
    · rw [if_neg hab]
      exact ⟨rfl, rfl, rfl⟩
  · intro a b h
    rw [reveal1_grid]
    by_cases hab : a = r ∧ b = c
    · rw [if_pos hab]
    · rw [if_neg hab]; exact h

theorem loseState_grid (now : Nat) (s : GameState) (a b : Nat) :
    (loseState now s).grid a b = revealAllMinesGrid s a b := rfl

theorem loseState_evolves (now : Nat) (s : GameState) : Evolves s (loseState now s) := by
  refine ⟨rfl, rfl, rfl, rfl, rfl, ?_, ?_⟩
  · intro a b
    rw [loseState_grid, revealAllMinesGrid_eval]
    split
    · exact ⟨rfl, rfl, rfl⟩
    · exact ⟨rfl, rfl, rfl⟩
  · intro a b h
    rw [loseState_grid, revealAllMinesGrid_eval]
    split
    · rfl
    · exact h

theorem revealGo_evolves (now : Nat) :
    ∀ (fuel r c : Nat) (s : GameState), Evolves s (revealGo now fuel r c s) := by
  intro fuel
  induction fuel with
  | zero => intro r c s; exact evolves_refl s
  | succ fuel ih =>
    intro r c s
    rw [revealGo_succ]
    by_cases hp : s.status ≠ Status.playing
    · rw [if_pos hp]; exact evolves_refl s
    · rw [if_neg hp]
      by_cases hg : (s.grid r c).isRevealed = true ∨ (s.grid r c).isFlagged = true
      · rw [if_pos hg]; exact evolves_refl s
      · rw [if_neg hg]
        by_cases hm : (s.grid r c).isMine = true
        · rw [if_pos hm]
          exact (reveal1_evolves s r c).trans (loseState_evolves now _)
        · rw [if_neg hm]
          refine Evolves.trans ?_ (checkWin_evolves now _)
          by_cases hz : (s.grid r c).neighborMines = 0
          · rw [if_pos hz]
            refine foldl_induct (fun t => Evolves s t) _ offsets (reveal1 s r c)
              (reveal1_evolves s r c) ?_
            intro t d _ hev
            dsimp only
            split
            · exact hev.trans (ih _ _ t)
            · exact hev
          · rw [if_neg hz]
            exact reveal1_evolves s r c

theorem checkWin_safeCells (now : Nat) (s : GameState) :
    unrevealedSafeCells (checkWin now s) = unrevealedSafeCells s := by
  unfold checkWin; split <;> rfl

theorem cellsOf_eq_of_dims {s t : GameState} (hr : t.rows = s.rows) (hc : t.cols = s.cols) :
    cellsOf t = cellsOf s := by
  unfold cellsOf; rw [hr, hc]

theorem evolves_safeCells_le {s t : GameState} (h : Evolves s t) :
    unrevealedSafeCells t ≤ unrevealedSafeCells s := by
  obtain ⟨h1, h2, -, -, -, h6, h7⟩ := h
  unfold unrevealedSafeCells
  rw [cellsOf_eq_of_dims h1 h2]
  refine Finset.card_le_card ?_
  intro p hp
  rw [Finset.mem_filter] at hp ⊢
  refine ⟨hp.1, ?_, ?_⟩
  · rw [← (h6 p.1 p.2).1]; exact hp.2.1
  · rcases Bool.eq_false_or_eq_true ((s.grid p.1 p.2).isRevealed) with h | h
    · have hrev := h7 p.1 p.2 h
      rw [hp.2.2] at hrev
      exact absurd hrev (by simp)
    · exact h

theorem evolves_safeCells_zero {s t : GameState} (h : Evolves s t)
    (h0 : unrevealedSafeCells s = 0) : unrevealedSafeCells t = 0 :=
  Nat.le_antisymm (h0 ▸ evolves_safeCells_le h) (Nat.zero_le _)

/-! ## Claim C9: terminal statuses -/

theorem applyOp_of_notPlaying (op : Op) (s : GameState) (h : s.status ≠ Status.playing) :
    applyOp op s = s := by
  cases op with
  | reveal now r c =>
    show (revealCell now r c s).getD s = s
    unfold revealCell
    rw [if_pos h]
    rfl
  | flag r c =>
    show (flagCell r c s).getD s = s
    unfold flagCell
    rw [if_pos h]
    rfl
  | tick now =>
    show (checkTimeout now s).1 = s
    unfold checkTimeout
    rw [if_pos h]

theorem applyOps_cons (op : Op) (ops : List Op) (s : GameState) :
    applyOps (op :: ops) s = applyOps ops (applyOp op s) := rfl

/-- C9: once a match's status is not `playing`, no sequence of reveal, flag or
timeout-check operations changes anything about the match (so in particular the
status never leaves `won` or `lost`); only a fresh generation yields `playing`. -/
theorem c9_terminal_statuses (s : GameState) (h : s.status ≠ Status.playing)
    (ops : List Op) : applyOps ops s = s := by
  induction ops with
  | nil => rfl
  | cons op ops ih =>
    rw [applyOps_cons, applyOp_of_notPlaying op s h]
    exact ih

/-- A concluded (lost) match on a 1-by-1 board, used as a concrete fixture. -/
def lostFixture : GameState :=
  { grid := initGrid, rows := 1, cols := 1, mines := 0, status := Status.lost,
    startTime := some 1, endTime := some 2, timeLimit := 120 }

theorem c9_terminal_statuses_witness :
    lostFixture.status ≠ Status.playing ∧
      applyOps [Op.reveal 3 0 0, Op.flag 0 0, Op.tick 99, Op.reveal 4 5 5] lostFixture =
        lostFixture :=
  ⟨by decide, c9_terminal_statuses lostFixture (by decide) _⟩

/-! ## Claim C5: invalid reveals -/

/-- A fresh playing 1-by-1 match with no mines, used as a concrete fixture. -/
def oneByOne : GameState :=
  { grid := initGrid, rows := 1, cols := 1, mines := 0, status := Status.playing,
    startTime := some 5, endTime := none, timeLimit := 120 }

/-- C5 counterexample: under a playing match, an out-of-range reveal is not a
silent no-op; the `grid[r][c]` access throws (modelled as `none`). -/
theorem c5_out_of_range_throws :
    oneByOne.status = Status.playing ∧ revealCell 9 1 1 oneByOne = none := ⟨rfl, rfl⟩

/-- C5 (amended): reveals on a non-playing match and reveals of an in-range
already-revealed or flagged cell are silent no-ops, but an out-of-range reveal
under a playing match raises an error (an undefined-property access) instead of
leaving the state unchanged. -/
theorem c5_invalid_reveals (now r c : Nat) (s : GameState) :
    (s.status ≠ Status.playing → revealCell now r c s = some s) ∧
    (s.status = Status.playing → r < s.rows → c < s.cols →
      ((s.grid r c).isRevealed = true ∨ (s.grid r c).isFlagged = true) →
      revealCell now r c s = some s) ∧
    (s.status = Status.playing → ¬(r < s.rows ∧ c < s.cols) → revealCell now r c s = none) := by
  refine ⟨?_, ?_, ?_⟩
  · intro h
    unfold revealCell
    rw [if_pos h]
  · intro hp hr hc hg
    unfold revealCell
    rw [if_neg (by simp [hp]), if_pos ⟨hr, hc⟩, revealGo_of_guard now _ r c s hg]
  · intro hp hout
    unfold revealCell
    rw [if_neg (by simp [hp]), if_neg hout]

theorem c5_invalid_reveals_witness :
    revealCell 3 0 0 lostFixture = some lostFixture ∧ revealCell 4 2 0 oneByOne = none :=
  ⟨(c5_invalid_reveals 3 0 0 lostFixture).1 (by decide),
    (c5_invalid_reveals 4 2 0 oneByOne).2.2 rfl (by decide)⟩

/-! ## Claim C8: flag toggling -/

attribute [ext] GameState

theorem toggleFlag1_grid (s : GameState) (r c a b : Nat) :
    (toggleFlag1 s r c).grid a b =
      if a = r ∧ b = c then { s.grid r c with isFlagged := !(s.grid r c).isFlagged }
      else s.grid a b := rfl

/-- C8: on a playing match, flagging an unrevealed in-range cell toggles exactly
that cell's flag and nothing else; flagging twice restores the original state;
flagging a revealed cell is a no-op; and a flag operation never changes the
match status. -/
theorem c8_flag_toggle (r c : Nat) (s : GameState) :
    (∀ t, flagCell r c s = some t → t.status = s.status) ∧
    (s.status = Status.playing → r < s.rows → c < s.cols →
      ((s.grid r c).isRevealed = true → flagCell r c s = some s) ∧
      ((s.grid r c).isRevealed = false →
        flagCell r c s = some (toggleFlag1 s r c) ∧
        ((toggleFlag1 s r c).grid r c).isFlagged = !(s.grid r c).isFlagged ∧
        ((toggleFlag1 s r c).grid r c).isRevealed = (s.grid r c).isRevealed ∧
        ((toggleFlag1 s r c).grid r c).isMine = (s.grid r c).isMine ∧
        ((toggleFlag1 s r c).grid r c).neighborMines = (s.grid r c).neighborMines ∧
        (∀ a b, ¬(a = r ∧ b = c) → (toggleFlag1 s r c).grid a b = s.grid a b) ∧
        (toggleFlag1 s r c).rows = s.rows ∧ (toggleFlag1 s r c).cols = s.cols ∧
        (toggleFlag1 s r c).mines = s.mines ∧ (toggleFlag1 s r c).status = s.status ∧
        (toggleFlag1 s r c).startTime = s.startTime ∧
        (toggleFlag1 s r c).endTime = s.endTime ∧
        (toggleFlag1 s r c).timeLimit = s.timeLimit ∧
        toggleFlag1 (toggleFlag1 s r c) r c = s)) := by
  constructor
  · intro t ht
    unfold flagCell at ht
    by_cases hp : s.status ≠ Status.playing
    · rw [if_pos hp] at ht
      cases ht
      rfl
    · rw [if_neg hp] at ht
      by_cases hb : r < s.rows ∧ c < s.cols
      · rw [if_pos hb] at ht
        by_cases hrev : (s.grid r c).isRevealed = true
        · rw [if_pos hrev] at ht
          cases ht
          rfl
        · rw [if_neg hrev] at ht
          cases ht
          rfl
      · rw [if_neg hb] at ht
        cases ht
  · intro hp hr hc
    constructor
    · intro hrev
      unfold flagCell
      rw [if_neg (by simp [hp]), if_pos ⟨hr, hc⟩, if_pos hrev]
    · intro hrev
      have hflip : flagCell r c s = some (toggleFlag1 s r c) := by
        unfold flagCell
        rw [if_neg (by simp [hp]), if_pos ⟨hr, hc⟩, if_neg (by simp [hrev])]
      refine ⟨hflip, ?_, ?_, ?_, ?_, ?_, rfl, rfl, rfl, rfl, rfl, rfl, rfl, ?_⟩
      · rw [toggleFlag1_grid, if_pos ⟨rfl, rfl⟩]
      · rw [toggleFlag1_grid, if_pos ⟨rfl, rfl⟩]
      · rw [toggleFlag1_grid, if_pos ⟨rfl, rfl⟩]
      · rw [toggleFlag1_grid, if_pos ⟨rfl, rfl⟩]
      · intro a b hab
        rw [toggleFlag1_grid, if_neg hab]
      · ext1
        case grid =>
          funext a b
          rw [toggleFlag1_grid]
          by_cases hab : a = r ∧ b = c
          · obtain ⟨rfl, rfl⟩ := hab
            rw [if_pos ⟨rfl, rfl⟩, toggleFlag1_grid, if_pos ⟨rfl, rfl⟩]
            simp
          · rw [if_neg hab, toggleFlag1_grid, if_neg hab]
        all_goals rfl

theorem c8_flag_toggle_witness :
    flagCell 0 0 oneByOne = some (toggleFlag1 oneByOne 0 0) ∧
    ((toggleFlag1 oneByOne 0 0).grid 0 0).isFlagged = true ∧
    toggleFlag1 (toggleFlag1 oneByOne 0 0) 0 0 = oneByOne := by
  have h := (c8_flag_toggle 0 0 oneByOne).2 rfl (by decide) (by decide) |>.2 rfl
  exact ⟨h.1, h.2.1, h.2.2.2.2.2.2.2.2.2.2.2.2.2⟩

/-! ## Claim C6: timeout check -/

/-- A playing 1-by-2 board with a mine at `(0, 1)`, started at time 1000. -/
def tickBoard : GameState :=
  { grid := setCell initGrid 0 1 { initGrid 0 1 with isMine := true }, rows := 1, cols := 2,
    mines := 1, status := Status.playing, startTime := some 1000, endTime := none,
    timeLimit := 120 }

/-- A playing match whose `startTime` is the timestamp 0. -/
def zeroStartFixture : GameState :=
  { grid := initGrid, rows := 1, cols := 1, mines := 0, status := Status.playing,
    startTime := some 0, endTime := none, timeLimit := 120 }

/-- C6 counterexample: with `startTime = t0 = 0` and `timeLimit = 120`, calling
the timeout check at `now = t0 + 120000` does not expire the match — JavaScript
`!startTime` treats the timestamp 0 as unset — contradicting the claim that the
check expires exactly when `floor((now - t0)/1000) ≥ timeLimit`. -/
theorem c6_zero_start_never_expires :
    zeroStartFixture.status = Status.playing ∧ zeroStartFixture.startTime = some 0 ∧
    zeroStartFixture.timeLimit = 120 ∧ checkTimeout 120000 zeroStartFixture =
      (zeroStartFixture, false) := ⟨rfl, rfl, rfl, rfl⟩

/-- C6 (amended): the timeout check is a no-op returning `false` when the
status is not `playing` or `startTime` is unset or is the timestamp 0;
otherwise it expires exactly when `floor((now - startTime)/1000) ≥ timeLimit`,
and on expiry sets `status = lost`, `endTime = now`, reveals every mine and
returns `true`, leaving flags untouched. -/
theorem c6_timeout (now : Nat) (s : GameState) :
    (s.status ≠ Status.playing ∨ s.startTime = none ∨ s.startTime = some 0 →
      checkTimeout now s = (s, false)) ∧
    (∀ t0, s.status = Status.playing → s.startTime = some t0 → t0 ≠ 0 →
      ((s.timeLimit : Int) ≤ Int.fdiv ((now : Int) - (t0 : Int)) 1000 →
        checkTimeout now s = (loseState now s, true) ∧
        (loseState now s).status = Status.lost ∧
        (loseState now s).endTime = some now ∧
        (∀ a b, a < s.rows → b < s.cols → (s.grid a b).isMine = true →
          ((loseState now s).grid a b).isRevealed = true) ∧
        (∀ a b, ((loseState now s).grid a b).isFlagged = (s.grid a b).isFlagged)) ∧
      (¬((s.timeLimit : Int) ≤ Int.fdiv ((now : Int) - (t0 : Int)) 1000) →
        checkTimeout now s = (s, false))) := by
  constructor
  · intro h
    unfold checkTimeout
    rcases h with h | h | h
    · rw [if_pos h]
    · rw [h]
      split
      · rfl
      · rfl
    · rw [h]
      split
      · rfl
      · rfl
  · intro t0 hp hst h0
    have hnp : ¬(s.status ≠ Status.playing) := by simp [hp]
    constructor
    · intro hexp
      refine ⟨?_, rfl, rfl, ?_, ?_⟩
      · unfold checkTimeout
        rw [if_neg hnp, hst]
        dsimp only
        rw [if_neg h0, if_pos hexp]
      · intro a b ha hb hm
        rw [loseState_grid, revealAllMinesGrid_eval, if_pos ⟨ha, hb, hm⟩]
      · intro a b
        rw [loseState_grid, revealAllMinesGrid_eval]
        split
        · rfl
        · rfl
    · intro hexp
      unfold checkTimeout
      rw [if_neg hnp, hst]
      dsimp only
      rw [if_neg h0, if_neg hexp]

theorem c6_timeout_witness :
    checkTimeout 120000 tickBoard = (tickBoard, false) ∧
    checkTimeout 121000 tickBoard = (loseState 121000 tickBoard, true) ∧
    (loseState 121000 tickBoard).status = Status.lost ∧
    ((loseState 121000 tickBoard).grid 0 1).isRevealed = true := by
  have h1 := (c6_timeout 120000 tickBoard).2 1000 rfl rfl (by decide)
  have h2 := (c6_timeout 121000 tickBoard).2 1000 rfl rfl (by decide)
  have h2e := h2.1 (by decide)
  exact ⟨h1.2 (by decide), h2e.1, h2e.2.1, h2e.2.2.2.1 0 1 (by decide) (by decide) rfl⟩

/-! ## Claim C2: losing reveal -/

theorem reveal1_isMine (s : GameState) (r c a b : Nat) :
    ((reveal1 s r c).grid a b).isMine = (s.grid a b).isMine := by
  rw [reveal1_grid]
  by_cases hab : a = r ∧ b = c
  · obtain ⟨rfl, rfl⟩ := hab
    rw [if_pos ⟨rfl, rfl⟩]
  · rw [if_neg hab]

theorem reveal1_isFlagged (s : GameState) (r c a b : Nat) :
    ((reveal1 s r c).grid a b).isFlagged = (s.grid a b).isFlagged := by
  rw [reveal1_grid]
  by_cases hab : a = r ∧ b = c
  · obtain ⟨rfl, rfl⟩ := hab
    rw [if_pos ⟨rfl, rfl⟩]
  · rw [if_neg hab]

theorem reveal1_neighborMines (s : GameState) (r c a b : Nat) :
    ((reveal1 s r c).grid a b).neighborMines = (s.grid a b).neighborMines := by
  rw [reveal1_grid]
  by_cases hab : a = r ∧ b = c
  · obtain ⟨rfl, rfl⟩ := hab
    rw [if_pos ⟨rfl, rfl⟩]
  · rw [if_neg hab]

theorem reveal1_isRevealed_other (s : GameState) (r c a b : Nat) (hab : ¬(a = r ∧ b = c)) :
    ((reveal1 s r c).grid a b).isRevealed = (s.grid a b).isRevealed := by
  rw [reveal1_grid, if_neg hab]

theorem reveal1_isRevealed_self (s : GameState) (r c : Nat) :
    ((reveal1 s r c).grid r c).isRevealed = true := by
  rw [reveal1_grid, if_pos ⟨rfl, rfl⟩]

/-- C2: revealing an unrevealed, unflagged mine of a playing match loses the
match, stamps `endTime`, reveals every mine cell on the board, and leaves every
cell's flag and every non-mine cell's revealed state unchanged. -/
theorem c2_losing_reveal (now r c : Nat) (s : GameState) (hp : s.status = Status.playing)
    (hr : r < s.rows) (hc : c < s.cols) (hrev : (s.grid r c).isRevealed = false)
    (hflag : (s.grid r c).isFlagged = false) (hmine : (s.grid r c).isMine = true) :
    ∀ t, revealCell now r c s = some t →
      t.status = Status.lost ∧ t.endTime = some now ∧
      (∀ a b, a < s.rows → b < s.cols → (s.grid a b).isMine = true →
        (t.grid a b).isRevealed = true) ∧
      (∀ a b, (t.grid a b).isFlagged = (s.grid a b).isFlagged) ∧
      (∀ a b, (s.grid a b).isMine = false → (t.grid a b).isRevealed = (s.grid a b).isRevealed) := by
  intro t ht
  unfold revealCell at ht
  rw [if_neg (by simp [hp]), if_pos ⟨hr, hc⟩] at ht
  rw [revealGo_mine now _ r c s hp hrev hflag hmine] at ht
  cases ht
  refine ⟨rfl, rfl, ?_, ?_, ?_⟩
  · intro a b ha hb hm
    rw [loseState_grid, revealAllMinesGrid_eval]
    rw [if_pos ⟨by simpa using ha, by simpa using hb, by rw [reveal1_isMine]; exact hm⟩]
  · intro a b
    rw [loseState_grid, revealAllMinesGrid_eval]
    split
    · show ((reveal1 s r c).grid a b).isFlagged = _
      rw [reveal1_isFlagged]
    · rw [reveal1_isFlagged]
  · intro a b hm
    have hm1 : ((reveal1 s r c).grid a b).isMine = false := by rw [reveal1_isMine]; exact hm
    rw [loseState_grid, revealAllMinesGrid_eval, if_neg (by simp [hm1])]
    have hab : ¬(a = r ∧ b = c) := by
      rintro ⟨rfl, rfl⟩
      rw [hm] at hmine
      cases hmine
    rw [reveal1_isRevealed_other s r c a b hab]

/-- A playing 1-by-3 board: safe cell `(0, 0)`, mine `(0, 1)`, flagged mine `(0, 2)`. -/
def mineBoard : GameState :=
  { grid := setCell (setCell initGrid 0 1 { initGrid 0 1 with isMine := true }) 0 2
      { isMine := true, isRevealed := false, isFlagged := true, neighborMines := 0 },
    rows := 1, cols := 3, mines := 2, status := Status.playing, startTime := some 1,
    endTime := none, timeLimit := 120 }

/-- The state after clicking the mine at `(0, 1)` of `mineBoard`. -/
def mineBoardAfter : GameState := (revealCell 7 0 1 mineBoard).getD mineBoard

theorem c2_losing_reveal_witness :
    mineBoardAfter.status = Status.lost ∧ mineBoardAfter.endTime = some 7 ∧
    (mineBoardAfter.grid 0 2).isRevealed = true ∧ (mineBoardAfter.grid 0 2).isFlagged = true ∧
    (mineBoardAfter.grid 0 0).isRevealed = false := by
  have h := c2_losing_reveal 7 0 1 mineBoard rfl (by decide) (by decide) rfl rfl rfl
    mineBoardAfter rfl
  refine ⟨h.1, h.2.1, h.2.2.1 0 2 (by decide) (by decide) rfl, ?_, ?_⟩
  · rw [h.2.2.2.1 0 2]
    rfl
  · rw [h.2.2.2.2 0 0 rfl]
    rfl

/-! ## Claim C1: win detection -/

theorem revealGo_won_inv (now : Nat) : ∀ (fuel r c : Nat) (s : GameState),
    (s.status = Status.won → unrevealedSafeCells s = 0 ∧ s.endTime = some now) →
    (revealGo now fuel r c s).status = Status.won →
    unrevealedSafeCells (revealGo now fuel r c s) = 0 ∧
      (revealGo now fuel r c s).endTime = some now := by
  intro fuel
  induction fuel with
  | zero => intro r c s hs hw; exact hs hw
  | succ fuel ih =>
    intro r c s hs
    rw [revealGo_succ]
    by_cases hp : s.status ≠ Status.playing
    · rw [if_pos hp]; exact hs
    · rw [if_neg hp]
      by_cases hg : (s.grid r c).isRevealed = true ∨ (s.grid r c).isFlagged = true
      · rw [if_pos hg]; exact hs
      · rw [if_neg hg]
        by_cases hm : (s.grid r c).isMine = true
        · rw [if_pos hm]
          intro hw
          exact absurd hw (by simp [loseState_status])
        · rw [if_neg hm]
          have hP : ∀ u : GameState,
              (u.status = Status.won → unrevealedSafeCells u = 0 ∧ u.endTime = some now) →
              True := fun _ _ => trivial
          have hs1 : (reveal1 s r c).status = Status.won →
              unrevealedSafeCells (reveal1 s r c) = 0 ∧ (reveal1 s r c).endTime = some now := by
            intro hw
            rw [reveal1_status] at hw
            rw [hw] at hp
            exact absurd (by intro h; cases h) hp
          set s2 : GameState :=
            (if (s.grid r c).neighborMines = 0 then
              offsets.foldl (fun t d =>
                if 0 ≤ (r : Int) + d.1 ∧ (r : Int) + d.1 < (t.rows : Int) ∧
                    0 ≤ (c : Int) + d.2 ∧ (c : Int) + d.2 < (t.cols : Int) then
                  revealGo now fuel ((r : Int) + d.1).toNat ((c : Int) + d.2).toNat t
                else t) (reveal1 s r c)
            else reveal1 s r c) with hs2def
          have hs2 : s2.status = Status.won →
              unrevealedSafeCells s2 = 0 ∧ s2.endTime = some now := by
            rw [hs2def]
            by_cases hz : (s.grid r c).neighborMines = 0
            · rw [if_pos hz]
              refine foldl_induct
                (fun u => u.status = Status.won →
                  unrevealedSafeCells u = 0 ∧ u.endTime = some now)
                _ offsets (reveal1 s r c) hs1 ?_
              intro u d _ hu
              dsimp only
              split
              · exact ih _ _ u hu
              · exact hu
            · rw [if_neg hz]; exact hs1
          unfold checkWin
          by_cases h0 : unrevealedSafeCells s2 = 0
          · rw [if_pos h0]
            intro _
            exact ⟨h0, rfl⟩
          · rw [if_neg h0]
            exact hs2

/-- C1: after a reveal of an unrevealed, unflagged non-mine cell of a playing
match, the match status is `won` exactly when the count of cells that are
neither mines nor revealed has reached zero, and on that transition `endTime`
is stamped with the current time. -/
theorem c1_win_detection (now r c : Nat) (s : GameState) (hp : s.status = Status.playing)
    (hr : r < s.rows) (hc : c < s.cols) (hrev : (s.grid r c).isRevealed = false)
    (hflag : (s.grid r c).isFlagged = false) (hmine : (s.grid r c).isMine = false) :
    ∀ t, revealCell now r c s = some t →
      (t.status = Status.won ↔ unrevealedSafeCells t = 0) ∧
      (t.status = Status.won → t.endTime = some now) := by
  intro t ht
  unfold revealCell at ht
  rw [if_neg (by simp [hp]), if_pos ⟨hr, hc⟩] at ht
  have hbase : s.status = Status.won → unrevealedSafeCells s = 0 ∧ s.endTime = some now := by
    intro hw; rw [hp] at hw; cases hw
  have hwinv := revealGo_won_inv now (s.rows * s.cols + 1) r c s hbase
  cases ht
  constructor
  · constructor
    · intro hw
      exact (hwinv hw).1
    · intro h0
      rw [revealGo_main now _ r c s hp hrev hflag hmine] at h0 ⊢
      rw [checkWin_safeCells] at h0
      unfold checkWin
      rw [if_pos h0]
  · intro hw
    exact (hwinv hw).2

/-- The state after revealing the only cell of the mine-free `oneByOne` board. -/
def oneByOneAfter : GameState := (revealCell 9 0 0 oneByOne).getD oneByOne

theorem c1_win_detection_witness :
    oneByOneAfter.status = Status.won ∧ oneByOneAfter.endTime = some 9 := by
  have h := c1_win_detection 9 0 0 oneByOne rfl (by decide) (by decide) rfl rfl rfl
    oneByOneAfter rfl
  have hw : oneByOneAfter.status = Status.won := h.1.mpr (by decide)
  exact ⟨hw, h.2 hw⟩

/-! ## Claim C7: board generation -/

theorem mem_offsets_iff (d : Int × Int) :
    d ∈ offsets ↔ (d.1 = -1 ∨ d.1 = 0 ∨ d.1 = 1) ∧ (d.2 = -1 ∨ d.2 = 0 ∨ d.2 = 1) := by
  obtain ⟨x, y⟩ := d
  simp only [offsets, List.mem_cons, List.not_mem_nil, or_false, Prod.mk.injEq]
  omega

theorem offsets_nodup : offsets.Nodup := by decide

theorem foldl_count_if {α : Type} (P : α → Prop) [DecidablePred P] :
    ∀ (l : List α) (n : Nat),
      l.foldl (fun k d => if P d then k + 1 else k) n =
        n + (l.filter (fun d => decide (P d))).length := by
  intro l
  induction l with
  | nil => intro n; simp
  | cons d l ih =>
    intro n
    by_cases hd : P d
    · rw [List.foldl_cons, if_pos hd, ih, List.filter_cons]
      rw [decide_eq_true hd, if_pos rfl, List.length_cons]
      omega
    · rw [List.foldl_cons, if_neg hd, ih, List.filter_cons]
      rw [decide_eq_false hd]
      simp

/-- The code's nine-offset neighbor count agrees with the specification count:
for a non-mine center, the number of in-bounds mined cells at Chebyshev
distance one.  (The center itself, visited via offset `(0, 0)`, contributes
nothing because it is not a mine.) -/
theorem mineNeighborCount_eq_spec (g : Grid) (rows cols r c : Nat)
    (hr : r < rows) (hc : c < cols) (hm : (g r c).isMine = false) :
    mineNeighborCount g rows cols r c =
      ((Finset.range rows ×ˢ Finset.range cols).filter
        (fun p => p ≠ (r, c) ∧ chebAdj r c p.1 p.2 ∧ (g p.1 p.2).isMine = true)).card := by
  have h1 : mineNeighborCount g rows cols r c =
      (offsets.filter (fun d => decide (0 ≤ (r : Int) + d.1 ∧ (r : Int) + d.1 < (rows : Int) ∧
        0 ≤ (c : Int) + d.2 ∧ (c : Int) + d.2 < (cols : Int) ∧
        (g ((r : Int) + d.1).toNat ((c : Int) + d.2).toNat).isMine = true))).length :=
    (foldl_count_if (fun d : Int × Int =>
      0 ≤ (r : Int) + d.1 ∧ (r : Int) + d.1 < (rows : Int) ∧
      0 ≤ (c : Int) + d.2 ∧ (c : Int) + d.2 < (cols : Int) ∧
      (g ((r : Int) + d.1).toNat ((c : Int) + d.2).toNat).isMine = true) offsets 0).trans
      (Nat.zero_add _)
  rw [h1, ← List.toFinset_card_of_nodup (offsets_nodup.filter _), List.toFinset_filter]
  refine Finset.card_bij
    (fun d _ => (((r : Int) + d.1).toNat, ((c : Int) + d.2).toNat)) ?_ ?_ ?_
  · intro d hd
    dsimp only
    rw [Finset.mem_filter, List.mem_toFinset] at hd
    obtain ⟨hdo, hq⟩ := hd
    rw [decide_eq_true_iff] at hq
    obtain ⟨q1, q2, q3, q4, q5⟩ := hq
    obtain ⟨hd1, hd2⟩ := (mem_offsets_iff d).mp hdo
    rw [Finset.mem_filter, Finset.mem_product, Finset.mem_range, Finset.mem_range]
    refine ⟨⟨by omega, by omega⟩, ?_, ?_, q5⟩
    · intro hpe
      have he1 : ((r : Int) + d.1).toNat = r := congrArg Prod.fst hpe
      have he2 : ((c : Int) + d.2).toNat = c := congrArg Prod.snd hpe
      rw [he1, he2] at q5
      rw [q5] at hm
      cases hm
    · unfold chebAdj
      dsimp only
      omega
  · intro d1 h1m d2 h2m heq
    dsimp only at heq
    rw [Finset.mem_filter, List.mem_toFinset, decide_eq_true_iff] at h1m h2m
    obtain ⟨-, q1, q2, q3, q4, -⟩ := h1m
    obtain ⟨-, p1, p2, p3, p4, -⟩ := h2m
    have e1 : ((r : Int) + d1.1).toNat = ((r : Int) + d2.1).toNat := congrArg Prod.fst heq
    have e2 : ((c : Int) + d1.2).toNat = ((c : Int) + d2.2).toNat := congrArg Prod.snd heq
    exact Prod.ext (by omega) (by omega)
  · intro p hp
    rw [Finset.mem_filter, Finset.mem_product, Finset.mem_range, Finset.mem_range] at hp
    obtain ⟨⟨hp1, hp2⟩, hpne, hpadj, hpm⟩ := hp
    unfold chebAdj at hpadj
    have he1 : ((r : Int) + ((p.1 : Int) - r)).toNat = p.1 := by omega
    have he2 : ((c : Int) + ((p.2 : Int) - c)).toNat = p.2 := by omega
    refine ⟨((p.1 : Int) - r, (p.2 : Int) - c), ?_, ?_⟩
    · rw [Finset.mem_filter, List.mem_toFinset, mem_offsets_iff]
      refine ⟨⟨by omega, by omega⟩, ?_⟩
      rw [decide_eq_true_iff]
      refine ⟨by omega, by omega, by omega, by omega, ?_⟩
      rw [he1, he2]
      exact hpm
    · dsimp only
      rw [he1, he2]

/-- Number of in-bounds mine cells of a grid. -/
def gridMineCount (g : Grid) (rows cols : Nat) : Nat :=
  ((Finset.range rows ×ˢ Finset.range cols).filter (fun p => (g p.1 p.2).isMine = true)).card

/-- Number of in-bounds mine cells of a match. -/
def mineCells (s : GameState) : Nat :=
  ((cellsOf s).filter (fun p => (s.grid p.1 p.2).isMine = true)).card

theorem gridMineCount_set_true (g : Grid) (rows cols r c : Nat) (hr : r < rows)
    (hc : c < cols) (hm : (g r c).isMine = false) :
    gridMineCount (setCell g r c { g r c with isMine := true }) rows cols =
      gridMineCount g rows cols + 1 := by
  unfold gridMineCount
  have hset : (Finset.range rows ×ˢ Finset.range cols).filter
      (fun p => (setCell g r c { g r c with isMine := true } p.1 p.2).isMine = true) =
      insert (r, c) ((Finset.range rows ×ˢ Finset.range cols).filter
        (fun p => (g p.1 p.2).isMine = true)) := by
    ext p
    rw [Finset.mem_insert, Finset.mem_filter, Finset.mem_filter, setCell_eval]
    by_cases hp : p.1 = r ∧ p.2 = c
    · rw [if_pos hp]
      have hpe : p = (r, c) := Prod.ext hp.1 hp.2
      subst hpe
      simp [Finset.mem_product, Finset.mem_range, hr, hc]
    · rw [if_neg hp]
      constructor
      · intro h; exact Or.inr h
      · intro h
        rcases h with h | h
        · exact absurd ⟨congrArg Prod.fst h, congrArg Prod.snd h⟩ hp
        · exact h
  rw [hset, Finset.card_insert_of_not_mem]
  rw [Finset.mem_filter]
  intro h
  rw [h.2] at hm
  cases hm

theorem setMine_fields (g : Grid) (r c a b : Nat) :
    (setCell g r c { g r c with isMine := true } a b).isRevealed = (g a b).isRevealed ∧
    (setCell g r c { g r c with isMine := true } a b).isFlagged = (g a b).isFlagged ∧
    (setCell g r c { g r c with isMine := true } a b).neighborMines =
      (g a b).neighborMines := by
  rw [setCell_eval]
  by_cases hab : a = r ∧ b = c
  · rw [if_pos hab]
    obtain ⟨rfl, rfl⟩ := hab
    exact ⟨rfl, rfl, rfl⟩
  · rw [if_neg hab]
    exact ⟨rfl, rfl, rfl⟩

/-- The mine-placement loop: when it completes, the grid holds exactly `mines`
in-bounds mines, and no other cell field has been touched. -/
theorem placeMines_spec (mines rows cols : Nat) :
    ∀ (draws : List (Nat × Nat)) (g : Grid) (placed : Nat),
      (∀ d ∈ draws, d.1 < rows ∧ d.2 < cols) →
      gridMineCount g rows cols = placed → placed ≤ mines →
      ∀ g2, placeMines mines draws g placed = some g2 →
        gridMineCount g2 rows cols = mines ∧
        (∀ a b, (g2 a b).isRevealed = (g a b).isRevealed ∧
          (g2 a b).isFlagged = (g a b).isFlagged ∧
          (g2 a b).neighborMines = (g a b).neighborMines) := by
  intro draws
  induction draws with
  | nil =>
    intro g placed hdraws hcount hle g2 hplace
    unfold placeMines at hplace
    by_cases hpm : placed < mines
    · rw [if_pos hpm] at hplace
      cases hplace
    · rw [if_neg hpm] at hplace
      have hge : placed = mines := Nat.le_antisymm hle (Nat.le_of_not_lt hpm)
      injection hplace with h2
      subst h2
      exact ⟨hge ▸ hcount, fun a b => ⟨rfl, rfl, rfl⟩⟩
  | cons d rest ih =>
    obtain ⟨r, c⟩ := d
    intro g placed hdraws hcount hle g2 hplace
    unfold placeMines at hplace
    by_cases hpm : placed < mines
    · rw [if_pos hpm] at hplace
      by_cases hmine : (g r c).isMine = true
      · rw [if_pos hmine] at hplace
        exact ih g placed (fun d hd => hdraws d (List.mem_cons_of_mem _ hd)) hcount hle
          g2 hplace
      · rw [if_neg hmine] at hplace
        have hbounds := hdraws (r, c) (List.mem_cons_self _ _)
        have hmf : (g r c).isMine = false := by
          rcases Bool.eq_false_or_eq_true ((g r c).isMine) with h | h
          · exact absurd h hmine
          · exact h
        have hcount2 : gridMineCount (setCell g r c { g r c with isMine := true }) rows cols =
            placed + 1 := by
          rw [gridMineCount_set_true g rows cols r c hbounds.1 hbounds.2 hmf, hcount]
        have hres := ih (setCell g r c { g r c with isMine := true }) (placed + 1)
          (fun d hd => hdraws d (List.mem_cons_of_mem _ hd)) hcount2 hpm g2 hplace
        refine ⟨hres.1, ?_⟩
        intro a b
        obtain ⟨f1, f2, f3⟩ := hres.2 a b
        obtain ⟨e1, e2, e3⟩ := setMine_fields g r c a b
        exact ⟨f1.trans e1, f2.trans e2, f3.trans e3⟩
    · rw [if_neg hpm] at hplace
      have hge : placed = mines := Nat.le_antisymm hle (Nat.le_of_not_lt hpm)
      injection hplace with h2
      subst h2
      exact ⟨hge ▸ hcount, fun a b => ⟨rfl, rfl, rfl⟩⟩

theorem fillNeighborCounts_isMine (g : Grid) (rows cols a b : Nat) :
    (fillNeighborCounts g rows cols a b).isMine = (g a b).isMine := by
  unfold fillNeighborCounts
  split
  · rfl
  · rfl

theorem fillNeighborCounts_isRevealed (g : Grid) (rows cols a b : Nat) :
    (fillNeighborCounts g rows cols a b).isRevealed = (g a b).isRevealed := by
  unfold fillNeighborCounts
  split
  · rfl
  · rfl

theorem fillNeighborCounts_isFlagged (g : Grid) (rows cols a b : Nat) :
    (fillNeighborCounts g rows cols a b).isFlagged = (g a b).isFlagged := by
  unfold fillNeighborCounts
  split
  · rfl
  · rfl

theorem fillNeighborCounts_count (g : Grid) (rows cols a b : Nat) (ha : a < rows)
    (hb : b < cols) (hm : (g a b).isMine = false) :
    (fillNeighborCounts g rows cols a b).neighborMines = mineNeighborCount g rows cols a b := by
  unfold fillNeighborCounts
  rw [if_pos ⟨ha, hb, hm⟩]

theorem initGrid_mineCount (rows cols : Nat) : gridMineCount initGrid rows cols = 0 := by
  unfold gridMineCount
  rw [Finset.filter_false_of_mem]
  · rfl
  · intro p _
    intro h
    cases h

/-- C7: a completed generation produces a board with exactly the requested
number of mines, correct neighbor counts for every non-mine cell (the true
number of mined cells at Chebyshev distance one, clipped at the edges), all
cells unrevealed and unflagged, a playing status with `startTime = now` and no
`endTime`, and the time limit given by the fixed size table (300 for 16-by-16,
600 for 16-by-30, 120 for every other size). -/
theorem c7_generation (rows cols mines : Nat) (draws : List (Nat × Nat)) (now : Nat)
    (hrows : 0 < rows) (hcols : 0 < cols) (hmines : mines < rows * cols)
    (hdraws : ∀ d ∈ draws, d.1 < rows ∧ d.2 < cols) :
    ∀ st, createNewGame rows cols mines draws now = some st →
      st.rows = rows ∧ st.cols = cols ∧ st.mines = mines ∧
      mineCells st = mines ∧
      neighborCountsCorrect st ∧
      (∀ a b, (st.grid a b).isRevealed = false ∧ (st.grid a b).isFlagged = false) ∧
      st.status = Status.playing ∧ st.startTime = some now ∧ st.endTime = none ∧
      (rows = 16 ∧ cols = 16 → st.timeLimit = 300) ∧
      (rows = 16 ∧ cols = 30 → st.timeLimit = 600) ∧
      (¬(rows = 16 ∧ cols = 16) → ¬(rows = 16 ∧ cols = 30) → st.timeLimit = 120) := by
  intro st hst
  unfold createNewGame at hst
  cases hpl : placeMines mines draws initGrid 0 with
  | none => rw [hpl] at hst; cases hst
  | some g =>
    rw [hpl] at hst
    injection hst with hst
    subst hst
    obtain ⟨hcount, hfields⟩ := placeMines_spec mines rows cols draws initGrid 0 hdraws
      (initGrid_mineCount rows cols) (Nat.zero_le mines) g hpl
    have hgm : ∀ a b, (fillNeighborCounts g rows cols a b).isMine = (g a b).isMine :=
      fun a b => fillNeighborCounts_isMine g rows cols a b
    refine ⟨rfl, rfl, rfl, ?_, ?_, ?_, rfl, rfl, rfl, ?_, ?_, ?_⟩
    · show ((Finset.range rows ×ˢ Finset.range cols).filter
        (fun p => (fillNeighborCounts g rows cols p.1 p.2).isMine = true)).card = mines
      rw [← hcount]
      unfold gridMineCount
      congr 1
      apply Finset.filter_congr
      intro p _
      rw [hgm p.1 p.2]
    · intro a ha b hb hm
      show (fillNeighborCounts g rows cols a b).neighborMines = _
      have hgmf : (g a b).isMine = false := by
        rw [← hgm a b]; exact hm
      rw [fillNeighborCounts_count g rows cols a b ha hb hgmf]
      rw [mineNeighborCount_eq_spec g rows cols a b ha hb hgmf]
      unfold specNeighborMines
      congr 1
      apply Finset.filter_congr
      intro p _
      rw [hgm p.1 p.2]
    · intro a b
      rw [fillNeighborCounts_isRevealed, fillNeighborCounts_isFlagged]
      obtain ⟨f1, f2, -⟩ := hfields a b
      rw [f1, f2]
      exact ⟨rfl, rfl⟩
    · rintro ⟨rfl, rfl⟩
      rfl
    · rintro ⟨rfl, rfl⟩
      rfl
    · intro h1 h2
      show (if rows = 16 ∧ cols = 16 then 300
        else if rows = 16 ∧ cols = 30 then 600 else 120) = 120
      rw [if_neg h1, if_neg h2]

/-- A concrete generated match: 2-by-2 board, one mine at `(0, 1)`. -/
def genBoard : GameState := (createNewGame 2 2 1 [(0, 1)] 3).getD oneByOne

theorem c7_generation_witness :
    mineCells genBoard = 1 ∧ neighborCountsCorrect genBoard ∧
    genBoard.status = Status.playing ∧ genBoard.startTime = some 3 ∧
    genBoard.endTime = none ∧ genBoard.timeLimit = 120 ∧
    (genBoard.grid 0 0).isRevealed = false ∧ (genBoard.grid 0 0).isFlagged = false := by
  have h := c7_generation 2 2 1 [(0, 1)] 3 (by decide) (by decide) (by decide)
    (by intro d hd; cases hd with
      | head => exact ⟨by decide, by decide⟩
      | tail _ h2 => cases h2) genBoard rfl
  obtain ⟨-, -, -, h4, h5, h6, h7, h8, h9, -, -, h12⟩ := h
  exact ⟨h4, h5, h7, h8, h9, h12 (by decide) (by decide), (h6 0 0).1, (h6 0 0).2⟩

/-! ## Reachable-state invariants (claims C4 and C10) -/

theorem placeMines_fields (mines : Nat) :
    ∀ (draws : List (Nat × Nat)) (g : Grid) (placed : Nat) (g2 : Grid),
      placeMines mines draws g placed = some g2 →
      ∀ a b, (g2 a b).isRevealed = (g a b).isRevealed ∧
        (g2 a b).isFlagged = (g a b).isFlagged := by
  intro draws
  induction draws with
  | nil =>
    intro g placed g2 hplace a b
    unfold placeMines at hplace
    by_cases hpm : placed < mines
    · rw [if_pos hpm] at hplace
      cases hplace
    · rw [if_neg hpm] at hplace
      injection hplace with h2
      subst h2
      exact ⟨rfl, rfl⟩
  | cons d rest ih =>
    obtain ⟨r, c⟩ := d
    intro g placed g2 hplace a b
    unfold placeMines at hplace
    by_cases hpm : placed < mines
    · rw [if_pos hpm] at hplace
      by_cases hmine : (g r c).isMine = true
      · rw [if_pos hmine] at hplace
        exact ih g placed g2 hplace a b
      · rw [if_neg hmine] at hplace
        obtain ⟨f1, f2⟩ := ih _ _ g2 hplace a b
        obtain ⟨e1, e2, -⟩ := setMine_fields g r c a b
        exact ⟨f1.trans e1, f2.trans e2⟩
    · rw [if_neg hpm] at hplace
      injection hplace with h2
      subst h2
      exact ⟨rfl, rfl⟩

/-- Any completed generation yields a playing match with all cells unrevealed
and unflagged and with correct neighbor counts. -/
theorem createNewGame_fresh (rows cols mines : Nat) (draws : List (Nat × Nat)) (now : Nat)
    (st : GameState) (hst : createNewGame rows cols mines draws now = some st) :
    st.rows = rows ∧ st.cols = cols ∧ st.status = Status.playing ∧
    (∀ a b, (st.grid a b).isRevealed = false ∧ (st.grid a b).isFlagged = false) ∧
    neighborCountsCorrect st := by
  unfold createNewGame at hst
  cases hpl : placeMines mines draws initGrid 0 with
  | none => rw [hpl] at hst; cases hst
  | some g =>
    rw [hpl] at hst
    injection hst with hst
    subst hst
    have hfields := placeMines_fields mines draws initGrid 0 g hpl
    have hgm : ∀ a b, (fillNeighborCounts g rows cols a b).isMine = (g a b).isMine :=
      fun a b => fillNeighborCounts_isMine g rows cols a b
    refine ⟨rfl, rfl, rfl, ?_, ?_⟩
    · intro a b
      rw [fillNeighborCounts_isRevealed, fillNeighborCounts_isFlagged]
      obtain ⟨f1, f2⟩ := hfields a b
      rw [f1, f2]
      exact ⟨rfl, rfl⟩
    · intro a ha b hb hm
      show (fillNeighborCounts g rows cols a b).neighborMines = _
      have hgmf : (g a b).isMine = false := by
        rw [← hgm a b]; exact hm
      rw [fillNeighborCounts_count g rows cols a b ha hb hgmf]
      rw [mineNeighborCount_eq_spec g rows cols a b ha hb hgmf]
      unfold specNeighborMines
      congr 1
      apply Finset.filter_congr
      intro p _
      rw [hgm p.1 p.2]

theorem evolves_countsCorrect {s t : GameState} (h : Evolves s t)
    (hc : neighborCountsCorrect s) : neighborCountsCorrect t := by
  obtain ⟨h1, h2, -, -, -, h6, -⟩ := h
  intro a ha b hb hm
  rw [(h6 a b).2.2, (h6 a b).1] at *
  have hspec : specNeighborMines t a b = specNeighborMines s a b := by
    unfold specNeighborMines
    rw [cellsOf_eq_of_dims h1 h2]
    congr 1
    apply Finset.filter_congr
    intro p _
    rw [(h6 p.1 p.2).1]
  rw [hspec]
  exact hc a (h1 ▸ ha) b (h2 ▸ hb) hm

/-- A zero-count non-mine cell of a board with correct neighbor counts has no
mined cell in its Chebyshev-one neighborhood. -/
theorem zero_no_mine_neighbors (s : GameState) (hc : neighborCountsCorrect s)
    (r c : Nat) (hr : r < s.rows) (hcc : c < s.cols) (hm : (s.grid r c).isMine = false)
    (hz : (s.grid r c).neighborMines = 0) :
    ∀ a b, a < s.rows → b < s.cols → chebAdj r c a b → (s.grid a b).isMine = false := by
  intro a b ha hb hadj
  have hs0 : specNeighborMines s r c = 0 := by
    rw [← hc r hr c hcc hm]
    exact hz
  unfold specNeighborMines at hs0
  rw [Finset.card_eq_zero] at hs0
  by_cases hab : (a, b) = (r, c)
  · have : a = r := congrArg Prod.fst hab
    have : b = c := congrArg Prod.snd hab
    subst this
    have hae : a = r := congrArg Prod.fst hab
    subst hae
    exact hm
  · rcases Bool.eq_false_or_eq_true ((s.grid a b).isMine) with hmv | hmv
    · exact absurd hmv (by
        intro hmv2
        have hmem : (a, b) ∈ (cellsOf s).filter
            (fun p => p ≠ (r, c) ∧ chebAdj r c p.1 p.2 ∧ (s.grid p.1 p.2).isMine = true) := by
          rw [Finset.mem_filter]
          refine ⟨?_, hab, hadj, hmv2⟩
          unfold cellsOf
          rw [Finset.mem_product, Finset.mem_range, Finset.mem_range]
          exact ⟨ha, hb⟩
        rw [hs0] at hmem
        cases hmem)
    · exact hmv

/-- The in-bounds neighbor visited through an offset is Chebyshev-adjacent. -/
theorem offset_target_adj (r c : Nat) (d : Int × Int) (hd : d ∈ offsets)
    (h1 : 0 ≤ (r : Int) + d.1) (h3 : 0 ≤ (c : Int) + d.2) :
    chebAdj r c ((r : Int) + d.1).toNat ((c : Int) + d.2).toNat := by
  obtain ⟨hd1, hd2⟩ := (mem_offsets_iff d).mp hd
  unfold chebAdj
  omega

theorem checkWin_playing (now : Nat) (s : GameState)
    (h : (checkWin now s).status = Status.playing) :
    checkWin now s = s ∧ s.status = Status.playing := by
  unfold checkWin at h ⊢
  by_cases h0 : unrevealedSafeCells s = 0
  · rw [if_pos h0] at h
    cases h
  · rw [if_neg h0] at h ⊢
    exact ⟨rfl, h⟩

theorem checkWin_status_or (now : Nat) (s : GameState) :
    (checkWin now s).status = Status.won ∨ checkWin now s = s := by
  unfold checkWin
  by_cases h0 : unrevealedSafeCells s = 0
  · rw [if_pos h0]
    exact Or.inl rfl
  · rw [if_neg h0]
    exact Or.inr rfl

/-- If a reveal leaves the match playing, the match was playing before and no
mine cell's revealed state was touched. -/
theorem revealGo_playing_inv (now : Nat) : ∀ (fuel r c : Nat) (s : GameState),
    (revealGo now fuel r c s).status = Status.playing →
    s.status = Status.playing ∧
    ∀ a b, (s.grid a b).isMine = true →
      ((revealGo now fuel r c s).grid a b).isRevealed = (s.grid a b).isRevealed := by
  intro fuel
  induction fuel with
  | zero => intro r c s h; exact ⟨h, fun a b _ => rfl⟩
  | succ fuel ih =>
    intro r c s h
    rw [revealGo_succ] at h ⊢
    by_cases hp : s.status ≠ Status.playing
    · rw [if_pos hp] at h ⊢
      exact ⟨h, fun a b _ => rfl⟩
    · rw [if_neg hp] at h ⊢
      by_cases hg : (s.grid r c).isRevealed = true ∨ (s.grid r c).isFlagged = true
      · rw [if_pos hg] at h ⊢
        exact ⟨h, fun a b _ => rfl⟩
      · rw [if_neg hg] at h ⊢
        by_cases hm : (s.grid r c).isMine = true
        · rw [if_pos hm] at h
          rw [loseState_status] at h
          cases h
        · rw [if_neg hm] at h ⊢
          have hsp : s.status = Status.playing := not_not.mp hp
          obtain ⟨hcw, hs2p⟩ := checkWin_playing now _ h
          rw [hcw]
          refine ⟨hsp, ?_⟩
          have hrm : ∀ a b, (s.grid a b).isMine = true →
              ((reveal1 s r c).grid a b).isRevealed = (s.grid a b).isRevealed := by
            intro a b hmb
            have hab : ¬(a = r ∧ b = c) := by
              rintro ⟨rfl, rfl⟩
              rw [hmb] at hm
              exact hm rfl
            exact reveal1_isRevealed_other s r c a b hab
          by_cases hz : (s.grid r c).neighborMines = 0
          · rw [if_pos hz] at hs2p ⊢
            have haux : ∀ (l : List (Int × Int)) (t : GameState),
                ((l.foldl (fun t d =>
                  if 0 ≤ (r : Int) + d.1 ∧ (r : Int) + d.1 < (t.rows : Int) ∧
                      0 ≤ (c : Int) + d.2 ∧ (c : Int) + d.2 < (t.cols : Int) then
                    revealGo now fuel ((r : Int) + d.1).toNat ((c : Int) + d.2).toNat t
                  else t) t).status = Status.playing) →
                t.status = Status.playing ∧
                ∀ a b, (t.grid a b).isMine = true →
                  ((l.foldl (fun t d =>
                    if 0 ≤ (r : Int) + d.1 ∧ (r : Int) + d.1 < (t.rows : Int) ∧
                        0 ≤ (c : Int) + d.2 ∧ (c : Int) + d.2 < (t.cols : Int) then
                      revealGo now fuel ((r : Int) + d.1).toNat ((c : Int) + d.2).toNat t
                    else t) t).grid a b).isRevealed = (t.grid a b).isRevealed := by
              intro l
              induction l with
              | nil => intro t h2; exact ⟨h2, fun a b _ => rfl⟩
              | cons d l ihl =>
                intro t h2
                rw [List.foldl_cons] at h2 ⊢
                obtain ⟨hbp, hbm⟩ := ihl _ h2
                by_cases hcond : 0 ≤ (r : Int) + d.1 ∧ (r : Int) + d.1 < (t.rows : Int) ∧
                    0 ≤ (c : Int) + d.2 ∧ (c : Int) + d.2 < (t.cols : Int)
                · rw [if_pos hcond] at hbp hbm ⊢
                  obtain ⟨htp, htm⟩ := ih _ _ t hbp
                  refine ⟨htp, ?_⟩
                  intro a b hmb
                  have hmb2 : ((revealGo now fuel ((r : Int) + d.1).toNat
                      ((c : Int) + d.2).toNat t).grid a b).isMine = true := by
                    obtain ⟨-, -, -, -, -, h6, -⟩ := revealGo_evolves now fuel
                      ((r : Int) + d.1).toNat ((c : Int) + d.2).toNat t
                    rw [(h6 a b).1]
                    exact hmb
                  rw [hbm a b hmb2, htm a b hmb]
                · rw [if_neg hcond] at hbp hbm ⊢
                  exact ⟨hbp, hbm⟩
            obtain ⟨-, hfm⟩ := haux offsets (reveal1 s r c) hs2p
            intro a b hmb
            rw [hfm a b (by
              have he : ((reveal1 s r c).grid a b).isMine = (s.grid a b).isMine :=
                reveal1_isMine s r c a b
              rw [he]; exact hmb)]
            exact hrm a b hmb
          · rw [if_neg hz] at hs2p ⊢
            exact hrm

theorem bool_not_true {b : Bool} (h : ¬(b = true)) : b = false := by
  rcases Bool.eq_false_or_eq_true b with h2 | h2
  · exact absurd h2 h
  · exact h2

/-- The amended C4 invariant: a cell can be simultaneously revealed and flagged
only if it is a mine and the match has been lost. -/
def Inv4 (s : GameState) : Prop :=
  ∀ a b, a < s.rows → b < s.cols →
    (s.grid a b).isRevealed = true → (s.grid a b).isFlagged = true →
    (s.grid a b).isMine = true ∧ s.status = Status.lost

theorem inv4_clean (s : GameState) (h4 : Inv4 s) (hnl : s.status ≠ Status.lost) :
    ∀ a b, a < s.rows → b < s.cols → (s.grid a b).isRevealed = true →
      (s.grid a b).isFlagged = false := by
  intro a b ha hb hrev
  rcases Bool.eq_false_or_eq_true ((s.grid a b).isFlagged) with hf | hf
  · exact absurd (h4 a b ha hb hrev hf).2 hnl
  · exact hf

theorem checkWin_inv4_noLost (now : Nat) (F : GameState) (h4F : Inv4 F)
    (hnlF : F.status ≠ Status.lost) :
    Inv4 (checkWin now F) ∧ (checkWin now F).status ≠ Status.lost := by
  by_cases h0 : unrevealedSafeCells F = 0
  · have hcw : checkWin now F = { F with status := Status.won, endTime := some now } := by
      unfold checkWin; rw [if_pos h0]
    rw [hcw]
    constructor
    · intro a b ha hb hrev hflag
      have hcl := inv4_clean F h4F hnlF a b ha hb hrev
      rw [hcl] at hflag
      cases hflag
    · intro hcontra
      cases hcontra
  · have hcw : checkWin now F = F := by unfold checkWin; rw [if_neg h0]
    rw [hcw]
    exact ⟨h4F, hnlF⟩

/-- Core preservation lemma for the reveal operation: on a board with correct
neighbor counts, revealing an in-bounds cell preserves the revealed-and-flagged
invariant, and revealing a non-mine cell can never lose the match. -/
theorem revealGo_inv4_noLost (now : Nat) : ∀ (fuel r c : Nat) (s : GameState),
    r < s.rows → c < s.cols →
    neighborCountsCorrect s → Inv4 s → s.status ≠ Status.lost →
    Inv4 (revealGo now fuel r c s) ∧
    ((s.grid r c).isMine = false → (revealGo now fuel r c s).status ≠ Status.lost) := by
  intro fuel
  induction fuel with
  | zero => intro r c s _ _ _ h4 hnl; exact ⟨h4, fun _ => hnl⟩
  | succ fuel ih =>
    intro r c s hr hc hcc h4 hnl
    rw [revealGo_succ]
    by_cases hp : s.status ≠ Status.playing
    · rw [if_pos hp]; exact ⟨h4, fun _ => hnl⟩
    · rw [if_neg hp]
      have hsp : s.status = Status.playing := not_not.mp hp
      by_cases hg : (s.grid r c).isRevealed = true ∨ (s.grid r c).isFlagged = true
      · rw [if_pos hg]; exact ⟨h4, fun _ => hnl⟩
      · rw [if_neg hg]
        have hgf : (s.grid r c).isRevealed = false ∧ (s.grid r c).isFlagged = false := by
          constructor
          · exact bool_not_true (fun h => hg (Or.inl h))
          · exact bool_not_true (fun h => hg (Or.inr h))
        have hs1inv : Inv4 (reveal1 s r c) := by
          intro a b ha hb hrev hflag
          rw [reveal1_isFlagged] at hflag
          by_cases hab : a = r ∧ b = c
          · obtain ⟨rfl, rfl⟩ := hab
            rw [hgf.2] at hflag
            cases hflag
          · rw [reveal1_isRevealed_other s r c a b hab] at hrev
            exact absurd (h4 a b ha hb hrev hflag).2 hnl
        have hs1cc : neighborCountsCorrect (reveal1 s r c) :=
          evolves_countsCorrect (reveal1_evolves s r c) hcc
        have hs1nl : (reveal1 s r c).status ≠ Status.lost := by
          rw [reveal1_status, hsp]
          intro h2
          cases h2
        by_cases hm : (s.grid r c).isMine = true
        · rw [if_pos hm]
          refine ⟨?_, ?_⟩
          · intro a b ha hb hrev hflag
            refine ⟨?_, rfl⟩
            rw [loseState_grid, revealAllMinesGrid_eval] at hrev hflag ⊢
            by_cases hcnd : a < (reveal1 s r c).rows ∧ b < (reveal1 s r c).cols ∧
                ((reveal1 s r c).grid a b).isMine = true
            · rw [if_pos hcnd]
              exact hcnd.2.2
            · rw [if_neg hcnd] at hrev hflag ⊢
              rw [reveal1_isFlagged] at hflag
              by_cases hab : a = r ∧ b = c
              · obtain ⟨rfl, rfl⟩ := hab
                rw [hgf.2] at hflag
                cases hflag
              · rw [reveal1_isRevealed_other s r c a b hab] at hrev
                exact absurd (h4 a b ha hb hrev hflag).2 hnl
          · intro hmf
            rw [hm] at hmf
            cases hmf
        · rw [if_neg hm]
          have hmf : (s.grid r c).isMine = false := bool_not_true hm
          by_cases hz : (s.grid r c).neighborMines = 0
          · rw [if_pos hz]
            have hfold := foldl_induct
              (fun t => Evolves (reveal1 s r c) t ∧ neighborCountsCorrect t ∧ Inv4 t ∧
                t.status ≠ Status.lost)
              (fun t d =>
                if 0 ≤ (r : Int) + d.1 ∧ (r : Int) + d.1 < (t.rows : Int) ∧
                    0 ≤ (c : Int) + d.2 ∧ (c : Int) + d.2 < (t.cols : Int) then
                  revealGo now fuel ((r : Int) + d.1).toNat ((c : Int) + d.2).toNat t
                else t)
              offsets (reveal1 s r c)
              ⟨evolves_refl _, hs1cc, hs1inv, hs1nl⟩
              (by
                intro t d hd hP
                obtain ⟨hev, hccT, h4T, hnlT⟩ := hP
                dsimp only
                by_cases hcond : 0 ≤ (r : Int) + d.1 ∧ (r : Int) + d.1 < (t.rows : Int) ∧
                    0 ≤ (c : Int) + d.2 ∧ (c : Int) + d.2 < (t.cols : Int)
                · rw [if_pos hcond]
                  obtain ⟨q1, q2, q3, q4⟩ := hcond
                  have hqr : ((r : Int) + d.1).toNat < t.rows := by omega
                  have hqc : ((c : Int) + d.2).toNat < t.cols := by omega
                  have ihh := ih ((r : Int) + d.1).toNat ((c : Int) + d.2).toNat t
                    hqr hqc hccT h4T hnlT
                  have hstep := revealGo_evolves now fuel ((r : Int) + d.1).toNat
                    ((c : Int) + d.2).toNat t
                  have h6 := hev.2.2.2.2.2.1
                  have hrt : r < t.rows := by rw [hev.1]; exact hr
                  have hct : c < t.cols := by rw [hev.2.1]; exact hc
                  have htzero : (t.grid r c).neighborMines = 0 := by
                    rw [(h6 r c).2.2, reveal1_neighborMines]
                    exact hz
                  have htmine : (t.grid r c).isMine = false := by
                    rw [(h6 r c).1, reveal1_isMine]
                    exact hmf
                  have hadj := offset_target_adj r c d hd q1 q3
                  have hqmine := zero_no_mine_neighbors t hccT r c hrt hct htmine htzero
                    ((r : Int) + d.1).toNat ((c : Int) + d.2).toNat hqr hqc hadj
                  exact ⟨hev.trans hstep, evolves_countsCorrect hstep hccT, ihh.1,
                    ihh.2 hqmine⟩
                · rw [if_neg hcond]
                  exact ⟨hev, hccT, h4T, hnlT⟩)
            obtain ⟨-, -, h4F, hnlF⟩ := hfold
            have hres := checkWin_inv4_noLost now _ h4F hnlF
            exact ⟨hres.1, fun _ => hres.2⟩
          · rw [if_neg hz]
            have hres := checkWin_inv4_noLost now _ hs1inv hs1nl
            exact ⟨hres.1, fun _ => hres.2⟩

theorem toggleFlag1_isMine (s : GameState) (r c a b : Nat) :
    ((toggleFlag1 s r c).grid a b).isMine = (s.grid a b).isMine := by
  rw [toggleFlag1_grid]
  by_cases hab : a = r ∧ b = c
  · rw [if_pos hab]
    obtain ⟨rfl, rfl⟩ := hab
    rfl
  · rw [if_neg hab]

theorem toggleFlag1_isRevealed (s : GameState) (r c a b : Nat) :
    ((toggleFlag1 s r c).grid a b).isRevealed = (s.grid a b).isRevealed := by
  rw [toggleFlag1_grid]
  by_cases hab : a = r ∧ b = c
  · rw [if_pos hab]
    obtain ⟨rfl, rfl⟩ := hab
    rfl
  · rw [if_neg hab]

theorem toggleFlag1_neighborMines (s : GameState) (r c a b : Nat) :
    ((toggleFlag1 s r c).grid a b).neighborMines = (s.grid a b).neighborMines := by
  rw [toggleFlag1_grid]
  by_cases hab : a = r ∧ b = c
  · rw [if_pos hab]
    obtain ⟨rfl, rfl⟩ := hab
    rfl
  · rw [if_neg hab]

theorem toggleFlag1_countsCorrect (s : GameState) (r c : Nat)
    (hcc : neighborCountsCorrect s) : neighborCountsCorrect (toggleFlag1 s r c) := by
  intro a ha b hb hm
  rw [toggleFlag1_isMine] at hm
  show ((toggleFlag1 s r c).grid a b).neighborMines = _
  rw [toggleFlag1_neighborMines]
  have hspec : specNeighborMines (toggleFlag1 s r c) a b = specNeighborMines s a b := by
    unfold specNeighborMines
    congr 1
    apply Finset.filter_congr
    intro p _
    rw [toggleFlag1_isMine]
  rw [hspec]
  exact hcc a ha b hb hm

theorem loseState_inv4 (now : Nat) (s : GameState) (h4 : Inv4 s)
    (hnl : s.status ≠ Status.lost) : Inv4 (loseState now s) := by
  intro a b ha hb hrev hflag
  refine ⟨?_, rfl⟩
  rw [loseState_grid, revealAllMinesGrid_eval] at hrev hflag ⊢
  by_cases hcnd : a < s.rows ∧ b < s.cols ∧ (s.grid a b).isMine = true
  · rw [if_pos hcnd]
    exact hcnd.2.2
  · rw [if_neg hcnd] at hrev hflag ⊢
    exact absurd (h4 a b ha hb hrev hflag).2 hnl

theorem checkWin_noLost (now : Nat) (F : GameState) (hnl : F.status ≠ Status.lost) :
    (checkWin now F).status ≠ Status.lost := by
  rcases checkWin_status_or now F with h | h
  · rw [h]
    intro h2
    cases h2
  · rw [h]
    exact hnl

/-- On a board with correct neighbor counts, revealing an in-bounds non-mine
cell never loses the match and never reveals a mine cell: the flood fill only
expands from zero-count cells, and a zero-count cell has no mined neighbor. -/
theorem revealGo_noLost (now : Nat) : ∀ (fuel r c : Nat) (s : GameState),
    r < s.rows → c < s.cols → neighborCountsCorrect s →
    s.status ≠ Status.lost → (s.grid r c).isMine = false →
    (revealGo now fuel r c s).status ≠ Status.lost ∧
    (∀ a b, (s.grid a b).isMine = true →
      ((revealGo now fuel r c s).grid a b).isRevealed = (s.grid a b).isRevealed) := by
  intro fuel
  induction fuel with
  | zero => intro r c s _ _ _ hnl _; exact ⟨hnl, fun _ _ _ => rfl⟩
  | succ fuel ih =>
    intro r c s hr hc hcc hnl hmf
    rw [revealGo_succ]
    by_cases hp : s.status ≠ Status.playing
    · rw [if_pos hp]; exact ⟨hnl, fun _ _ _ => rfl⟩
    · rw [if_neg hp]
      by_cases hg : (s.grid r c).isRevealed = true ∨ (s.grid r c).isFlagged = true
      · rw [if_pos hg]; exact ⟨hnl, fun _ _ _ => rfl⟩
      · rw [if_neg hg]
        rw [if_neg (by rw [hmf]; intro h2; cases h2)]
        have hs1cc : neighborCountsCorrect (reveal1 s r c) :=
          evolves_countsCorrect (reveal1_evolves s r c) hcc
        have hs1nl : (reveal1 s r c).status ≠ Status.lost := by
          rw [reveal1_status, not_not.mp hp]
          intro h2
          cases h2
        have hs1m : ∀ a b, (s.grid a b).isMine = true →
            ((reveal1 s r c).grid a b).isRevealed = (s.grid a b).isRevealed := by
          intro a b hmb
          refine reveal1_isRevealed_other s r c a b ?_
          rintro ⟨rfl, rfl⟩
          rw [hmb] at hmf
          cases hmf
        by_cases hz : (s.grid r c).neighborMines = 0
        · rw [if_pos hz]
          have hfold := foldl_induct
            (fun t => Evolves (reveal1 s r c) t ∧ neighborCountsCorrect t ∧
              t.status ≠ Status.lost ∧
              (∀ a b, (s.grid a b).isMine = true →
                (t.grid a b).isRevealed = (s.grid a b).isRevealed))
            (fun t d =>
              if 0 ≤ (r : Int) + d.1 ∧ (r : Int) + d.1 < (t.rows : Int) ∧
                  0 ≤ (c : Int) + d.2 ∧ (c : Int) + d.2 < (t.cols : Int) then
                revealGo now fuel ((r : Int) + d.1).toNat ((c : Int) + d.2).toNat t
              else t)
            offsets (reveal1 s r c)
            ⟨evolves_refl _, hs1cc, hs1nl, hs1m⟩
            (by
              intro t d hd hP
              obtain ⟨hev, hccT, hnlT, hmT⟩ := hP
              dsimp only
              by_cases hcond : 0 ≤ (r : Int) + d.1 ∧ (r : Int) + d.1 < (t.rows : Int) ∧
                  0 ≤ (c : Int) + d.2 ∧ (c : Int) + d.2 < (t.cols : Int)
              · rw [if_pos hcond]
                obtain ⟨q1, q2, q3, q4⟩ := hcond
                have hqr : ((r : Int) + d.1).toNat < t.rows := by omega
                have hqc : ((c : Int) + d.2).toNat < t.cols := by omega
                have hstep := revealGo_evolves now fuel ((r : Int) + d.1).toNat
                  ((c : Int) + d.2).toNat t
                have h6 := hev.2.2.2.2.2.1
                have hrt : r < t.rows := by rw [hev.1]; exact hr
                have hct : c < t.cols := by rw [hev.2.1]; exact hc
                have htzero : (t.grid r c).neighborMines = 0 := by
                  rw [(h6 r c).2.2, reveal1_neighborMines]
                  exact hz
                have htmine : (t.grid r c).isMine = false := by
                  rw [(h6 r c).1, reveal1_isMine]
                  exact hmf
                have hadj := offset_target_adj r c d hd q1 q3
                have hqmine := zero_no_mine_neighbors t hccT r c hrt hct htmine htzero
                  ((r : Int) + d.1).toNat ((c : Int) + d.2).toNat hqr hqc hadj
                have hih := ih ((r : Int) + d.1).toNat ((c : Int) + d.2).toNat t hqr hqc
                  hccT hnlT hqmine
                refine ⟨hev.trans hstep, evolves_countsCorrect hstep hccT, hih.1, ?_⟩
                intro a b hmb
                have htmineb : (t.grid a b).isMine = true := by
                  rw [(h6 a b).1, reveal1_isMine]
                  exact hmb
                rw [hih.2 a b htmineb]
                exact hmT a b hmb
              · rw [if_neg hcond]
                exact ⟨hev, hccT, hnlT, hmT⟩)
          refine ⟨checkWin_noLost now _ hfold.2.2.1, ?_⟩
          intro a b hmb
          rw [checkWin_grid]
          exact hfold.2.2.2 a b hmb
        · rw [if_neg hz]
          refine ⟨checkWin_noLost now _ hs1nl, ?_⟩
          intro a b hmb
          rw [checkWin_grid]
          exact hs1m a b hmb

/-- The combined invariant maintained by every operation: correct neighbor
counts, the revealed-and-flagged discipline, and no revealed mine while the
match is playing. -/
def GoodInv (s : GameState) : Prop :=
  neighborCountsCorrect s ∧ Inv4 s ∧
  (s.status = Status.playing → ∀ a b, a < s.rows → b < s.cols →
    (s.grid a b).isMine = true → (s.grid a b).isRevealed = false)

theorem applyOp_good (op : Op) (s : GameState) (h : GoodInv s) : GoodInv (applyOp op s) := by
  obtain ⟨hcc, h4, hmh⟩ := h
  by_cases hp : s.status ≠ Status.playing
  · rw [applyOp_of_notPlaying op s hp]
    exact ⟨hcc, h4, hmh⟩
  · have hsp : s.status = Status.playing := not_not.mp hp
    have hnl : s.status ≠ Status.lost := by rw [hsp]; intro h2; cases h2
    cases op with
    | reveal now r c =>
      show GoodInv ((revealCell now r c s).getD s)
      unfold revealCell
      rw [if_neg hp]
      by_cases hb : r < s.rows ∧ c < s.cols
      · rw [if_pos hb]
        show GoodInv (revealGo now (s.rows * s.cols + 1) r c s)
        have hin := revealGo_inv4_noLost now (s.rows * s.cols + 1) r c s hb.1 hb.2 hcc h4 hnl
        have hev := revealGo_evolves now (s.rows * s.cols + 1) r c s
        refine ⟨evolves_countsCorrect hev hcc, hin.1, ?_⟩
        intro hpl a b ha hb2 hmm
        obtain ⟨hsp2, hmrev⟩ := revealGo_playing_inv now _ r c s hpl
        have hsm : (s.grid a b).isMine = true := by
          rw [← (hev.2.2.2.2.2.1 a b).1]
          exact hmm
        rw [hmrev a b hsm]
        exact hmh hsp a b (by rw [← hev.1]; exact ha) (by rw [← hev.2.1]; exact hb2) hsm
      · rw [if_neg hb]
        exact ⟨hcc, h4, hmh⟩
    | flag r c =>
      show GoodInv ((flagCell r c s).getD s)
      unfold flagCell
      rw [if_neg hp]
      by_cases hb : r < s.rows ∧ c < s.cols
      · rw [if_pos hb]
        by_cases hrev : (s.grid r c).isRevealed = true
        · rw [if_pos hrev]
          exact ⟨hcc, h4, hmh⟩
        · rw [if_neg hrev]
          show GoodInv (toggleFlag1 s r c)
          refine ⟨toggleFlag1_countsCorrect s r c hcc, ?_, ?_⟩
          · intro a b ha hb2 hrev2 hflag2
            rw [toggleFlag1_isRevealed] at hrev2
            by_cases hab : a = r ∧ b = c
            · obtain ⟨rfl, rfl⟩ := hab
              rw [bool_not_true hrev] at hrev2
              cases hrev2
            · rw [toggleFlag1_grid, if_neg hab] at hflag2
              exact absurd (h4 a b ha hb2 hrev2 hflag2).2 hnl
          · intro hpl a b ha hb2 hmm
            rw [toggleFlag1_isMine] at hmm
            rw [toggleFlag1_isRevealed]
            exact hmh hsp a b ha hb2 hmm
      · rw [if_neg hb]
        exact ⟨hcc, h4, hmh⟩
    | tick now =>
      show GoodInv (checkTimeout now s).1
      unfold checkTimeout
      rw [if_neg hp]
      cases hst : s.startTime with
      | none => exact ⟨hcc, h4, hmh⟩
      | some t0 =>
        dsimp only
        by_cases h0 : t0 = 0
        · rw [if_pos h0]
          exact ⟨hcc, h4, hmh⟩
        · rw [if_neg h0]
          by_cases hexp : (s.timeLimit : Int) ≤ Int.fdiv ((now : Int) - (t0 : Int)) 1000
          · rw [if_pos hexp]
            show GoodInv (loseState now s)
            refine ⟨evolves_countsCorrect (loseState_evolves now s) hcc,
              loseState_inv4 now s h4 hnl, ?_⟩
            intro hpl
            rw [loseState_status] at hpl
            cases hpl
          · rw [if_neg hexp]
            exact ⟨hcc, h4, hmh⟩

/-- Every reachable state has correct neighbor counts, obeys the
revealed-and-flagged discipline, and hides all mines while playing. -/
theorem reachable_good (s : GameState) (h : Reachable s) : GoodInv s := by
  induction h with
  | gen rows cols mines draws now st hdraws hgen =>
    obtain ⟨hrows, hcols, hstat, hcells, hcc⟩ :=
      createNewGame_fresh rows cols mines draws now st hgen
    refine ⟨hcc, ?_, ?_⟩
    · intro a b ha hb hrev hflag
      rw [(hcells a b).1] at hrev
      cases hrev
    · intro _ a b _ _ _
      exact (hcells a b).1
  | step op s hs ih => exact applyOp_good op s ih

/-! ## Claims C4 and C10 -/

/-- A generated 1-by-3 match with mines at `(0, 1)` and `(0, 2)`. -/
def c4Base : GameState := (createNewGame 1 3 2 [(0, 1), (0, 2)] 0).getD oneByOne

/-- The state after flagging the mine at `(0, 2)` and then clicking the mine at
`(0, 1)`: the match is lost, and the reveal-all-mines pass reveals the flagged
mine while keeping its flag. -/
def c4After : GameState := applyOps [Op.flag 0 2, Op.reveal 7 0 1] c4Base

theorem c4Base_reachable : Reachable c4Base :=
  Reachable.gen 1 3 2 [(0, 1), (0, 2)] 0 c4Base (by decide) rfl

/-- C4 counterexample: a reachable state (flag a mine, then lose by clicking
another mine) in which a cell is simultaneously revealed and flagged, refuting
the claimed invariant. -/
theorem c4_revealed_and_flagged_cex :
    Reachable c4After ∧ (c4After.grid 0 2).isRevealed = true ∧
      (c4After.grid 0 2).isFlagged = true :=
  ⟨Reachable.step (Op.reveal 7 0 1) _ (Reachable.step (Op.flag 0 2) _
      (Reachable.gen 1 3 2 [(0, 1), (0, 2)] 0 c4Base (by decide) rfl)),
    by decide, by decide⟩

/-- C4 (amended): in every reachable state, a cell that is simultaneously
revealed and flagged must be a mine of a lost match — flagging is only possible
while unrevealed and a reveal never touches a flagged cell, but the
reveal-all-mines pass of a loss (or timeout) reveals flagged mines while
keeping their flags, so the original claim holds except for mines after a
loss. -/
theorem c4_revealed_flagged (s : GameState) (hs : Reachable s) :
    ∀ a b, a < s.rows → b < s.cols → (s.grid a b).isRevealed = true →
      (s.grid a b).isFlagged = true →
      (s.grid a b).isMine = true ∧ s.status = Status.lost :=
  fun a b ha hb hr hf => (reachable_good s hs).2.1 a b ha hb hr hf

theorem c4_revealed_flagged_witness :
    (c4After.grid 0 2).isMine = true ∧ c4After.status = Status.lost :=
  c4_revealed_flagged c4After
    (Reachable.step (Op.reveal 7 0 1) _ (Reachable.step (Op.flag 0 2) _ c4Base_reachable))
    0 2 (by decide) (by decide) (by decide) (by decide)

/-- C10: in every reachable state that is still playing, no mine cell is
revealed; and on a board with correct neighbor counts, revealing a non-mine
cell never sets the status to `lost` — the flood fill expands only from
zero-count cells, which have no mined neighbor, so it never reveals a mine. -/
theorem c10_mines_hidden :
    (∀ s, Reachable s → s.status = Status.playing →
      ∀ a b, a < s.rows → b < s.cols → (s.grid a b).isMine = true →
        (s.grid a b).isRevealed = false) ∧
    (∀ now r c s, neighborCountsCorrect s → s.status = Status.playing →
      r < s.rows → c < s.cols → (s.grid r c).isMine = false →
      ∀ t, revealCell now r c s = some t → t.status ≠ Status.lost ∧
        (∀ a b, (s.grid a b).isMine = true →
          (t.grid a b).isRevealed = (s.grid a b).isRevealed)) := by
  constructor
  · intro s hs hpl a b ha hb hm
    exact (reachable_good s hs).2.2 hpl a b ha hb hm
  · intro now r c s hcc hpl hr hc hm t ht
    unfold revealCell at ht
    rw [if_neg (by simp [hpl]), if_pos ⟨hr, hc⟩] at ht
    injection ht with ht
    subst ht
    have hnl : s.status ≠ Status.lost := by rw [hpl]; intro h2; cases h2
    exact revealGo_noLost now (s.rows * s.cols + 1) r c s hr hc hcc hnl hm

theorem c10_mines_hidden_witness :
    (genBoard.grid 0 1).isMine = true ∧ (genBoard.grid 0 1).isRevealed = false ∧
      ((revealCell 5 0 0 genBoard).getD genBoard).status ≠ Status.lost := by
  have hreach : Reachable genBoard :=
    Reachable.gen 2 2 1 [(0, 1)] 3 genBoard (by decide) rfl
  refine ⟨by decide, ?_, ?_⟩
  · exact c10_mines_hidden.1 genBoard hreach (by decide) 0 1 (by decide) (by decide) (by decide)
  · exact (c10_mines_hidden.2 5 0 0 genBoard (by decide) (by decide) (by decide) (by decide)
      (by decide) ((revealCell 5 0 0 genBoard).getD genBoard) rfl).1

/-! ## Claim C3: flood fill -/

theorem safeCells_zero_all_revealed (t : GameState) (h0 : unrevealedSafeCells t = 0) :
    ∀ a b, a < t.rows → b < t.cols → (t.grid a b).isMine = false →
      (t.grid a b).isRevealed = true := by
  intro a b ha hb hm
  unfold unrevealedSafeCells at h0
  rw [Finset.card_eq_zero] at h0
  rcases Bool.eq_false_or_eq_true ((t.grid a b).isRevealed) with hr | hr
  · exact hr
  · have hmem : (a, b) ∈ (cellsOf t).filter
        (fun p => (t.grid p.1 p.2).isMine = false ∧ (t.grid p.1 p.2).isRevealed = false) := by
      rw [Finset.mem_filter]
      refine ⟨?_, hm, hr⟩
      unfold cellsOf
      rw [Finset.mem_product, Finset.mem_range, Finset.mem_range]
      exact ⟨ha, hb⟩
    rw [h0] at hmem
    cases hmem

theorem evolves_unrevealed_le {s t : GameState} (h : Evolves s t) :
    unrevealedCells t ≤ unrevealedCells s := by
  obtain ⟨h1, h2, -, -, -, -, h7⟩ := h
  unfold unrevealedCells
  rw [cellsOf_eq_of_dims h1 h2]
  refine Finset.card_le_card ?_
  intro p hp
  rw [Finset.mem_filter] at hp ⊢
  refine ⟨hp.1, ?_⟩
  rcases Bool.eq_false_or_eq_true ((s.grid p.1 p.2).isRevealed) with h | h
  · have hrev := h7 p.1 p.2 h
    rw [hp.2] at hrev
    exact absurd hrev (by simp)
  · exact h

theorem reveal1_unrevealed_lt (t : GameState) (r c : Nat) (hr : r < t.rows) (hc : c < t.cols)
    (hrev : (t.grid r c).isRevealed = false) :
    unrevealedCells (reveal1 t r c) < unrevealedCells t := by
  unfold unrevealedCells
  have hcells : cellsOf (reveal1 t r c) = cellsOf t := rfl
  rw [hcells]
  refine Finset.card_lt_card ⟨?_, ?_⟩
  · intro p hp
    rw [Finset.mem_filter] at hp ⊢
    refine ⟨hp.1, ?_⟩
    have hp2 := hp.2
    rw [reveal1_grid] at hp2
    by_cases hab : p.1 = r ∧ p.2 = c
    · rw [if_pos hab] at hp2
      cases hp2
    · rw [if_neg hab] at hp2
      exact hp2
  · intro hsub
    have hmem : (r, c) ∈ (cellsOf t).filter
        (fun p => (t.grid p.1 p.2).isRevealed = false) := by
      rw [Finset.mem_filter]
      refine ⟨?_, hrev⟩
      unfold cellsOf
      rw [Finset.mem_product, Finset.mem_range, Finset.mem_range]
      exact ⟨hr, hc⟩
    have hmem2 := hsub hmem
    rw [Finset.mem_filter, reveal1_grid, if_pos ⟨rfl, rfl⟩] at hmem2
    cases hmem2.2

theorem unrevealedCells_le (s : GameState) : unrevealedCells s ≤ s.rows * s.cols := by
  unfold unrevealedCells
  calc ((cellsOf s).filter (fun p => (s.grid p.1 p.2).isRevealed = false)).card
      ≤ (cellsOf s).card := Finset.card_filter_le _ _
    _ = s.rows * s.cols := by
        unfold cellsOf
        rw [Finset.card_product, Finset.card_range, Finset.card_range]

/-- Every in-bounds Chebyshev-adjacent position is visited by some offset. -/
theorem adj_to_offset (r c a2 b2 rows cols : Nat) (ha : a2 < rows) (hb : b2 < cols)
    (hadj : chebAdj r c a2 b2) :
    ∃ d ∈ offsets, (0 ≤ (r : Int) + d.1 ∧ (r : Int) + d.1 < (rows : Int) ∧
      0 ≤ (c : Int) + d.2 ∧ (c : Int) + d.2 < (cols : Int)) ∧
      ((r : Int) + d.1).toNat = a2 ∧ ((c : Int) + d.2).toNat = b2 := by
  unfold chebAdj at hadj
  refine ⟨((a2 : Int) - r, (b2 : Int) - c), ?_, ⟨by omega, by omega, by omega, by omega⟩,
    by omega, by omega⟩
  rw [mem_offsets_iff]
  constructor
  · omega
  · omega

theorem flooded_inB {s : GameState} {r0 c0 a b : Nat} (h : Flooded s r0 c0 a b)
    (hr0 : r0 < s.rows) (hc0 : c0 < s.cols) : a < s.rows ∧ b < s.cols := by
  induction h with
  | start => exact ⟨hr0, hc0⟩
  | step r c r2 c2 h hzero hr2 hc2 hadj hrev hflag ih => exact ⟨hr2, hc2⟩

theorem flooded_not_rev {s : GameState} {r0 c0 a b : Nat} (h : Flooded s r0 c0 a b)
    (h0 : (s.grid r0 c0).isRevealed = false) : (s.grid a b).isRevealed = false := by
  induction h with
  | start => exact h0
  | step r c r2 c2 h hzero hr2 hc2 hadj hrev hflag ih => exact hrev

theorem flooded_not_flag {s : GameState} {r0 c0 a b : Nat} (h : Flooded s r0 c0 a b)
    (h0 : (s.grid r0 c0).isFlagged = false) : (s.grid a b).isFlagged = false := by
  induction h with
  | start => exact h0
  | step r c r2 c2 h hzero hr2 hc2 hadj hrev hflag ih => exact hflag

theorem flooded_not_mine {s : GameState} {r0 c0 a b : Nat} (h : Flooded s r0 c0 a b)
    (hcc : neighborCountsCorrect s) (hr0 : r0 < s.rows) (hc0 : c0 < s.cols)
    (hm0 : (s.grid r0 c0).isMine = false) : (s.grid a b).isMine = false := by
  induction h with
  | start => exact hm0
  | step r c r2 c2 h hzero hr2 hc2 hadj hrev hflag ih =>
    obtain ⟨hra, hca⟩ := flooded_inB h hr0 hc0
    exact zero_no_mine_neighbors s hcc r c hra hca ih hzero r2 c2 hr2 hc2 hadj

/-- Call-site precondition of the flood recursion: the visited cell is the
start cell or a neighbor of an already flooded zero-count cell. -/
def FloodCand (s : GameState) (r0 c0 r c : Nat) : Prop :=
  ∃ a b, Flooded s r0 c0 a b ∧ (s.grid a b).neighborMines = 0 ∧ chebAdj a b r c

theorem cand_self {s : GameState} {r0 c0 : Nat} (hz0 : (s.grid r0 c0).neighborMines = 0) :
    FloodCand s r0 c0 r0 c0 :=
  ⟨r0, c0, Flooded.start, hz0, by unfold chebAdj; omega⟩

theorem cand_not_mine {s : GameState} {r0 c0 r c : Nat} (h : FloodCand s r0 c0 r c)
    (hcc : neighborCountsCorrect s) (hr0 : r0 < s.rows) (hc0 : c0 < s.cols)
    (hm0 : (s.grid r0 c0).isMine = false) (hr : r < s.rows) (hc : c < s.cols) :
    (s.grid r c).isMine = false := by
  obtain ⟨a, b, hfl, hz, hadj⟩ := h
  obtain ⟨ha, hb⟩ := flooded_inB hfl hr0 hc0
  exact zero_no_mine_neighbors s hcc a b ha hb (flooded_not_mine hfl hcc hr0 hc0 hm0) hz
    r c hr hc hadj

theorem cand_flooded {s : GameState} {r0 c0 r c : Nat} (h : FloodCand s r0 c0 r c)
    (hr : r < s.rows) (hc : c < s.cols) (hrev : (s.grid r c).isRevealed = false)
    (hflag : (s.grid r c).isFlagged = false) : Flooded s r0 c0 r c := by
  obtain ⟨a, b, hfl, hz, hadj⟩ := h
  exact Flooded.step a b r c hfl hz hr hc hadj hrev hflag

/-- Mid-flood state description: the state evolved from `s`, every newly
revealed cell lies in the flood region, and the status is still playing unless
the win condition fired. -/
def Mid (s : GameState) (r0 c0 : Nat) (t : GameState) : Prop :=
  Evolves s t ∧
  (∀ a b, (t.grid a b).isRevealed = true →
    (s.grid a b).isRevealed = true ∨ Flooded s r0 c0 a b) ∧
  (t.status = Status.playing ∨ (t.status = Status.won ∧ unrevealedSafeCells t = 0))

theorem mid_checkWin {s : GameState} {r0 c0 : Nat} {F : GameState} (now : Nat)
    (h : Mid s r0 c0 F) : Mid s r0 c0 (checkWin now F) := by
  obtain ⟨hev, hcap, hstat⟩ := h
  by_cases h0 : unrevealedSafeCells F = 0
  · have hcw : checkWin now F = { F with status := Status.won, endTime := some now } := by
      unfold checkWin; rw [if_pos h0]
    rw [hcw]
    refine ⟨hev.trans ⟨rfl, rfl, rfl, rfl, rfl, fun _ _ => ⟨rfl, rfl, rfl⟩, fun _ _ h => h⟩,
      hcap, Or.inr ⟨rfl, h0⟩⟩
  · have hcw : checkWin now F = F := by unfold checkWin; rw [if_neg h0]
    rw [hcw]
    exact ⟨hev, hcap, hstat⟩

/-- Every zero-count cell newly revealed between `t` and `u` already has its
whole unflagged in-bounds neighborhood revealed in `u`. -/
def NZDone (s : GameState) (t u : GameState) : Prop :=
  ∀ a b, (u.grid a b).isRevealed = true → (t.grid a b).isRevealed = false →
    (s.grid a b).neighborMines = 0 →
    ∀ a2 b2, a2 < s.rows → b2 < s.cols → chebAdj a b a2 b2 →
      (s.grid a2 b2).isFlagged = false → (u.grid a2 b2).isRevealed = true

/-- The step of the neighbor loop of the flood fill, named for reasoning. -/
def floodBody (now fuel r c : Nat) : GameState → (Int × Int) → GameState :=
  fun t d =>
    if 0 ≤ (r : Int) + d.1 ∧ (r : Int) + d.1 < (t.rows : Int) ∧
        0 ≤ (c : Int) + d.2 ∧ (c : Int) + d.2 < (t.cols : Int) then
      revealGo now fuel ((r : Int) + d.1).toNat ((c : Int) + d.2).toNat t
    else t

theorem floodBody_eval (now fuel r c : Nat) (u : GameState) (d : Int × Int) :
    floodBody now fuel r c u d =
      if 0 ≤ (r : Int) + d.1 ∧ (r : Int) + d.1 < (u.rows : Int) ∧
          0 ≤ (c : Int) + d.2 ∧ (c : Int) + d.2 < (u.cols : Int) then
        revealGo now fuel ((r : Int) + d.1).toNat ((c : Int) + d.2).toNat u
      else u := rfl

/-- Main invariant lemma of the flood fill: called on a candidate cell of the
flood (the start cell or a neighbor of a flooded zero-count cell) in a
mid-flood state, the recursion preserves the mid-flood description, reveals the
visited cell unless it is flagged, and leaves every newly revealed zero-count
cell with its whole unflagged in-bounds neighborhood revealed. -/
theorem revealGo_flood (now : Nat) (s : GameState) (r0 c0 : Nat)
    (hr0 : r0 < s.rows) (hc0 : c0 < s.cols)
    (hrev0 : (s.grid r0 c0).isRevealed = false) (hflag0 : (s.grid r0 c0).isFlagged = false)
    (hmine0 : (s.grid r0 c0).isMine = false)
    (hcc : neighborCountsCorrect s) :
    ∀ (fuel : Nat), ∀ (r c : Nat) (t : GameState),
      Mid s r0 c0 t → FloodCand s r0 c0 r c → r < s.rows → c < s.cols →
      unrevealedCells t < fuel →
      Mid s r0 c0 (revealGo now fuel r c t) ∧
      ((s.grid r c).isFlagged = false →
        ((revealGo now fuel r c t).grid r c).isRevealed = true) ∧
      NZDone s t (revealGo now fuel r c t) := by
  intro fuel
  induction fuel with
  | zero => intro r c t _ _ _ _ hfuel; exact absurd hfuel (Nat.not_lt_zero _)
  | succ fuel ih =>
    intro r c t hmid hcand hr hc hfuel
    obtain ⟨hev, hcap, hstat⟩ := hmid
    have h6 := hev.2.2.2.2.2.1
    have hmono := hev.2.2.2.2.2.2
    have hrows : t.rows = s.rows := hev.1
    have hcols : t.cols = s.cols := hev.2.1
    have hqm : (s.grid r c).isMine = false := cand_not_mine hcand hcc hr0 hc0 hmine0 hr hc
    rw [revealGo_succ]
    by_cases hp : t.status ≠ Status.playing
    · rw [if_pos hp]
      have hwon : t.status = Status.won ∧ unrevealedSafeCells t = 0 := by
        rcases hstat with h | h
        · exact absurd h hp
        · exact h
      refine ⟨⟨hev, hcap, hstat⟩, ?_, ?_⟩
      · intro _
        refine safeCells_zero_all_revealed t hwon.2 r c ?_ ?_ ?_
        · rw [hrows]; exact hr
        · rw [hcols]; exact hc
        · rw [(h6 r c).1]; exact hqm
      · intro a b h1 h2
        rw [h1] at h2
        cases h2
    · rw [if_neg hp]
      have htp : t.status = Status.playing := not_not.mp hp
      by_cases hg : (t.grid r c).isRevealed = true ∨ (t.grid r c).isFlagged = true
      · rw [if_pos hg]
        refine ⟨⟨hev, hcap, hstat⟩, ?_, ?_⟩
        · intro hfls
          rcases hg with h | h
          · exact h
          · rw [(h6 r c).2.1, hfls] at h
            cases h
        · intro a b h1 h2
          rw [h1] at h2
          cases h2
      · rw [if_neg hg]
        have hgr : (t.grid r c).isRevealed = false := bool_not_true (fun h => hg (Or.inl h))
        have hgf : (t.grid r c).isFlagged = false := bool_not_true (fun h => hg (Or.inr h))
        have hsrev : (s.grid r c).isRevealed = false := by
          rcases Bool.eq_false_or_eq_true ((s.grid r c).isRevealed) with h | h
          · rw [hmono r c h] at hgr; cases hgr
          · exact h
        have hsflag : (s.grid r c).isFlagged = false := by rw [← (h6 r c).2.1]; exact hgf
        have hfl : Flooded s r0 c0 r c := cand_flooded hcand hr hc hsrev hsflag
        rw [if_neg (show ¬((t.grid r c).isMine = true) by
          rw [(h6 r c).1, hqm]; intro h2; cases h2)]
        have hmid1 : Mid s r0 c0 (reveal1 t r c) := by
          refine ⟨hev.trans (reveal1_evolves t r c), ?_, ?_⟩
          · intro a b hrev1
            rw [reveal1_grid] at hrev1
            by_cases hab : a = r ∧ b = c
            · obtain ⟨rfl, rfl⟩ := hab
              exact Or.inr hfl
            · rw [if_neg hab] at hrev1
              exact hcap a b hrev1
          · rw [reveal1_status]
            exact Or.inl htp
        have hlt : unrevealedCells (reveal1 t r c) < unrevealedCells t :=
          reveal1_unrevealed_lt t r c (by rw [hrows]; exact hr) (by rw [hcols]; exact hc) hgr
        have hbody : (fun (t : GameState) (d : Int × Int) =>
            if 0 ≤ (r : Int) + d.1 ∧ (r : Int) + d.1 < (t.rows : Int) ∧
                0 ≤ (c : Int) + d.2 ∧ (c : Int) + d.2 < (t.cols : Int) then
              revealGo now fuel ((r : Int) + d.1).toNat ((c : Int) + d.2).toNat t
            else t) = floodBody now fuel r c := rfl
        rw [hbody]
        by_cases hz : (t.grid r c).neighborMines = 0
        · rw [if_pos hz]
          have hsz : (s.grid r c).neighborMines = 0 := by rw [← (h6 r c).2.2]; exact hz
          have haux : ∀ (l : List (Int × Int)), (∀ d ∈ l, d ∈ offsets) →
              ∀ (u : GameState), Mid s r0 c0 u →
              unrevealedCells u ≤ unrevealedCells (reveal1 t r c) →
              Mid s r0 c0 (l.foldl (floodBody now fuel r c) u) ∧
              Evolves u (l.foldl (floodBody now fuel r c) u) ∧
              NZDone s u (l.foldl (floodBody now fuel r c) u) ∧
              unrevealedCells (l.foldl (floodBody now fuel r c) u) ≤ unrevealedCells u ∧
              (∀ d ∈ l, 0 ≤ (r : Int) + d.1 → (r : Int) + d.1 < (s.rows : Int) →
                0 ≤ (c : Int) + d.2 → (c : Int) + d.2 < (s.cols : Int) →
                (s.grid ((r : Int) + d.1).toNat ((c : Int) + d.2).toNat).isFlagged = false →
                ((l.foldl (floodBody now fuel r c) u).grid ((r : Int) + d.1).toNat
                  ((c : Int) + d.2).toNat).isRevealed = true) := by
            intro l
            induction l with
            | nil =>
              intro _ u hmidu hcount
              simp only [List.foldl_nil]
              refine ⟨hmidu, evolves_refl u, ?_, Nat.le_refl _, ?_⟩
              · intro a b h1 h2
                rw [h1] at h2
                cases h2
              · intro d hd
                cases hd
            | cons d l ihl =>
              intro hsub u hmidu hcount
              rw [List.foldl_cons]
              have hd : d ∈ offsets := hsub d (List.mem_cons_self d l)
              have hurows : u.rows = s.rows := hmidu.1.1
              have hucols : u.cols = s.cols := hmidu.1.2.1
              by_cases hcond : 0 ≤ (r : Int) + d.1 ∧ (r : Int) + d.1 < (u.rows : Int) ∧
                  0 ≤ (c : Int) + d.2 ∧ (c : Int) + d.2 < (u.cols : Int)
              · rw [floodBody_eval, if_pos hcond]
                obtain ⟨q1, q2, q3, q4⟩ := hcond
                rw [hurows] at q2
                rw [hucols] at q4
                have hqr : ((r : Int) + d.1).toNat < s.rows := by omega
                have hqc : ((c : Int) + d.2).toNat < s.cols := by omega
                have hqcand : FloodCand s r0 c0 ((r : Int) + d.1).toNat
                    ((c : Int) + d.2).toNat :=
                  ⟨r, c, hfl, hsz, offset_target_adj r c d hd q1 q3⟩
                have hfuel2 : unrevealedCells u < fuel := by omega
                obtain ⟨hmidu1, htgt, hnz1⟩ :=
                  ih ((r : Int) + d.1).toNat ((c : Int) + d.2).toNat u hmidu hqcand
                    hqr hqc hfuel2
                have hevu1 := revealGo_evolves now fuel ((r : Int) + d.1).toNat
                  ((c : Int) + d.2).toNat u
                have hcount1 := evolves_unrevealed_le hevu1
                obtain ⟨hmidF, hevF, hnzF, hcountF, htgtF⟩ :=
                  ihl (fun d2 hd2 => hsub d2 (List.mem_cons_of_mem d hd2)) _ hmidu1
                    (Nat.le_trans hcount1 hcount)
                refine ⟨hmidF, hevu1.trans hevF, ?_, Nat.le_trans hcountF hcount1, ?_⟩
                · intro a b hrva hrvb hza a2 b2 ha2 hb2 hadj hf2
                  by_cases hru1 : ((revealGo now fuel ((r : Int) + d.1).toNat
                      ((c : Int) + d.2).toNat u).grid a b).isRevealed = true
                  · have hn := hnz1 a b hru1 hrvb hza a2 b2 ha2 hb2 hadj hf2
                    exact hevF.2.2.2.2.2.2 a2 b2 hn
                  · exact hnzF a b hrva (bool_not_true hru1) hza a2 b2 ha2 hb2 hadj hf2
                · intro d2 hd2 hb1 hb2 hb3 hb4 hflag2
                  rcases List.mem_cons.mp hd2 with rfl | hd2tail
                  · exact hevF.2.2.2.2.2.2 _ _ (htgt hflag2)
                  · exact htgtF d2 hd2tail hb1 hb2 hb3 hb4 hflag2
              · rw [floodBody_eval, if_neg hcond]
                obtain ⟨hmidF, hevF, hnzF, hcountF, htgtF⟩ :=
                  ihl (fun d2 hd2 => hsub d2 (List.mem_cons_of_mem d hd2)) u hmidu hcount
                refine ⟨hmidF, hevF, hnzF, hcountF, ?_⟩
                intro d2 hd2 hb1 hb2 hb3 hb4 hflag2
                rcases List.mem_cons.mp hd2 with rfl | hd2tail
                · refine absurd ⟨hb1, ?_, hb3, ?_⟩ hcond
                  · rw [hurows]; exact hb2
                  · rw [hucols]; exact hb4
                · exact htgtF d2 hd2tail hb1 hb2 hb3 hb4 hflag2
          obtain ⟨hmidF, hevF, hnzF, -, htgtF⟩ :=
            haux offsets (fun d hd => hd) (reveal1 t r c) hmid1 (Nat.le_refl _)
          refine ⟨mid_checkWin now hmidF, ?_, ?_⟩
          · intro _
            rw [checkWin_grid]
            exact hevF.2.2.2.2.2.2 r c (reveal1_isRevealed_self t r c)
          · intro a b hrva hrvb hza a2 b2 ha2 hb2 hadj hf2
            rw [checkWin_grid] at hrva ⊢
            by_cases hab : a = r ∧ b = c
            · obtain ⟨rfl, rfl⟩ := hab
              obtain ⟨d, hd, hbounds, he1, he2⟩ :=
                adj_to_offset a b a2 b2 s.rows s.cols ha2 hb2 hadj
              have hres := htgtF d hd hbounds.1 hbounds.2.1 hbounds.2.2.1 hbounds.2.2.2
                (by rw [he1, he2]; exact hf2)
              rw [he1, he2] at hres
              exact hres
            · have hrvb1 : ((reveal1 t r c).grid a b).isRevealed = false := by
                rw [reveal1_grid, if_neg hab]
                exact hrvb
              exact hnzF a b hrva hrvb1 hza a2 b2 ha2 hb2 hadj hf2
        · rw [if_neg hz]
          refine ⟨mid_checkWin now hmid1, ?_, ?_⟩
          · intro _
            rw [checkWin_grid]
            exact reveal1_isRevealed_self t r c
          · intro a b hrva hrvb hza a2 b2 ha2 hb2 hadj hf2
            rw [checkWin_grid] at hrva ⊢
            rw [reveal1_grid] at hrva
            by_cases hab : a = r ∧ b = c
            · obtain ⟨rfl, rfl⟩ := hab
              rw [(h6 a b).2.2] at hz
              exact absurd hza hz
            · rw [if_neg hab] at hrva
              rw [hrva] at hrvb
              cases hrvb

/-- C3 (amended): revealing an unrevealed, unflagged, non-mine zero-count cell
of a playing match with correct neighbor counts reveals exactly the cells
reachable from it by repeated neighbor expansion through unrevealed, unflagged
zero-count cells — the connected zero-region computed over unrevealed cells
plus its unrevealed unflagged bordering cells.  No flagged cell and no mine
becomes revealed, no flag changes, and already-revealed cells block the
expansion (cells beyond them are not revealed). -/
theorem c3_flood_region (now r c : Nat) (s : GameState)
    (hpl : s.status = Status.playing) (hr : r < s.rows) (hc : c < s.cols)
    (hrev : (s.grid r c).isRevealed = false) (hflag : (s.grid r c).isFlagged = false)
    (hmine : (s.grid r c).isMine = false) (hz : (s.grid r c).neighborMines = 0)
    (hcc : neighborCountsCorrect s) :
    ∀ t, revealCell now r c s = some t →
      (∀ a b, (t.grid a b).isRevealed = true ↔
        ((s.grid a b).isRevealed = true ∨ Flooded s r c a b)) ∧
      (∀ a b, Flooded s r c a b →
        (s.grid a b).isFlagged = false ∧ (s.grid a b).isMine = false) ∧
      (∀ a b, (t.grid a b).isFlagged = (s.grid a b).isFlagged) := by
  intro t ht
  unfold revealCell at ht
  rw [if_neg (by simp [hpl]), if_pos ⟨hr, hc⟩] at ht
  injection ht with ht
  subst ht
  have hmid0 : Mid s r c s := ⟨evolves_refl s, fun a b h => Or.inl h, Or.inl hpl⟩
  have hfuel : unrevealedCells s < s.rows * s.cols + 1 :=
    Nat.lt_succ_of_le (unrevealedCells_le s)
  obtain ⟨hmidT, htgtT, hnzT⟩ := revealGo_flood now s r c hr hc hrev hflag hmine hcc
    (s.rows * s.cols + 1) r c s hmid0 (cand_self hz) hr hc hfuel
  obtain ⟨hevT, hcapT, -⟩ := hmidT
  have hmonoT := hevT.2.2.2.2.2.2
  have hcompl : ∀ a b, Flooded s r c a b →
      ((revealGo now (s.rows * s.cols + 1) r c s).grid a b).isRevealed = true := by
    intro a b hfl
    induction hfl with
    | start => exact htgtT hflag
    | step p1 pc q1 qc hflp hzp hq1 hqc hadj hrevq hflagq ihp =>
      exact hnzT p1 pc ihp (flooded_not_rev hflp hrev) hzp q1 qc hq1 hqc hadj hflagq
  refine ⟨?_, ?_, ?_⟩
  · intro a b
    constructor
    · exact hcapT a b
    · intro hor
      rcases hor with h | h
      · exact hmonoT a b h
      · exact hcompl a b h
  · intro a b hfl
    exact ⟨flooded_not_flag hfl hflag, flooded_not_mine hfl hcc hr hc hmine⟩
  · intro a b
    exact (hevT.2.2.2.2.2.1 a b).2.1

/-- A playing 1-by-5 mine-free board whose middle cell `(0, 2)` was already
revealed (reachable by flagging the ends, revealing the middle, unflagging). -/
def cexFlood : GameState :=
  { grid := setCell initGrid 0 2 { initGrid 0 2 with isRevealed := true }, rows := 1, cols := 5,
    mines := 0, status := Status.playing, startTime := some 1, endTime := none,
    timeLimit := 120 }

/-- C3 counterexample: on `cexFlood`, cell `(0, 3)` belongs to the connected
zero-count region of the clicked cell `(0, 1)` as the claim describes it (no
flags, no mines anywhere), yet `reveal(0, 1)` leaves `(0, 3)` unrevealed — the
flood fill also stops at the already-revealed cell `(0, 2)`, which the claim
does not allow for. -/
theorem c3_flood_cex :
    cexFlood.status = Status.playing ∧
    (cexFlood.grid 0 1).isRevealed = false ∧ (cexFlood.grid 0 1).isFlagged = false ∧
    (cexFlood.grid 0 1).neighborMines = 0 ∧ (cexFlood.grid 0 1).isMine = false ∧
    neighborCountsCorrect cexFlood ∧
    (∀ a, a < 1 → ∀ b, b < 5 → (cexFlood.grid a b).isFlagged = false ∧
      (cexFlood.grid a b).isMine = false) ∧
    FloodedSpec cexFlood 0 1 0 3 ∧
    (revealCell 9 0 1 cexFlood).map (fun u => (u.grid 0 3).isRevealed) = some false := by
  refine ⟨rfl, rfl, rfl, rfl, rfl, by decide, by decide, ?_, by decide⟩
  have h1 : FloodedSpec cexFlood 0 1 0 2 :=
    FloodedSpec.step 0 1 0 2 FloodedSpec.start (by decide) (by decide) (by decide)
      (by decide) (by decide) (by decide)
  exact FloodedSpec.step 0 2 0 3 h1 (by decide) (by decide) (by decide) (by decide)
    (by decide) (by decide)

/-- A fresh playing 1-by-2 mine-free board. -/
def twoBoard : GameState :=
  { grid := initGrid, rows := 1, cols := 2, mines := 0, status := Status.playing,
    startTime := some 2, endTime := none, timeLimit := 120 }

theorem c3_flood_region_witness :
    (((revealCell 4 0 0 twoBoard).getD twoBoard).grid 0 1).isRevealed = true := by
  have h := c3_flood_region 4 0 0 twoBoard rfl (by decide) (by decide) rfl rfl rfl rfl
    (by decide) ((revealCell 4 0 0 twoBoard).getD twoBoard) rfl
  have hfl : Flooded twoBoard 0 0 0 1 :=
    Flooded.step 0 0 0 1 Flooded.start (by decide) (by decide) (by decide) (by decide)
      (by decide) (by decide)
  exact (h.1 0 1).mpr (Or.inr hfl)
